import Mathlib

/-!
Verification of the user-profile JSON codec in
`Assignment/AssignmentProject/Number1/number10.py`.

Embedding conventions:

* Python runtime values that can flow through the codec are modelled by the
  inductive type `PyVal`: JSON-representable values (`null`, `bool`, `int`,
  `str`, `arr`, `dict`) plus `opq`, which stands for a Python object that the
  `json` module cannot serialize (such as `object()` or a `set`, objects
  without a usable `__dict__`, so that `json.dumps` raises `TypeError` on
  them even with the custom `default=_json_serializer` fallback).
  JSON numbers are modelled as integers only; floating-point literals are
  outside the scope of this model.  Dictionary keys are modelled as strings
  (every dictionary built or parsed by the modelled code paths has string
  keys).  Python strings are modelled through their list of code points
  (`String`/`List Char`); `str.isdigit` is modelled as "non-empty and every
  character is an ASCII decimal digit".
* `datetime.now().isoformat()` is modelled by threading an explicit `now :
  String` argument through every operation that stamps a timestamp.
* Exceptions are modelled with `Except PyError` / `Option PyError`; the
  constructors of `PyError` record which Python exception type was raised,
  so "never leaks a raw parser exception" is visible in the result type.
  `UserProfile.update_preferences` mutates its receiver in Python, so it is
  modelled as returning the raised exception (if any) together with the
  post-state of the receiver.
* `json.dumps(profile_dict, indent=2, ensure_ascii=False)` is modelled by
  `jsonDumps` (a renderer producing the exact indent-2 text layout of the
  standard library, escaping `"`, `\`, and control characters), and
  `json.loads` by `jsonParse` (a whitespace-tolerant recursive-descent
  reader of the JSON grammar over the modelled value set; later duplicate
  object keys overwrite earlier ones in place, as `dict` construction does).
-/

set_option maxRecDepth 100000

/-! Python value model -/

inductive PyVal where
  | null : PyVal
  | bool (b : Bool) : PyVal
  | int (n : Int) : PyVal
  | str (s : String) : PyVal
  | arr (xs : List PyVal) : PyVal
  | dict (kvs : List (String × PyVal)) : PyVal
  | opq (tag : Nat) : PyVal
deriving Repr

/-- Python truthiness (`bool(v)`) for the modelled values. -/
def pyTruthy : PyVal → Bool
  | .null => false
  | .bool b => b
  | .int n => decide (n ≠ 0)
  | .str s => !s.data.isEmpty
  | .arr xs => !xs.isEmpty
  | .dict kvs => !kvs.isEmpty
  | .opq _ => true

def PyVal.isDict : PyVal → Bool
  | .dict _ => true
  | _ => false

def PyVal.isStr : PyVal → Bool
  | .str _ => true
  | _ => false

/-! The function `pvEq` is Python `==` on the modelled values.
(Structural; the only place the code compares `PyVal`s for equality is the
serializer integrity check, which in every modelled code path compares two
strings, where structural equality is Python equality.) -/
mutual
def pvEq : PyVal → PyVal → Bool
  | .null, .null => true
  | .bool a, .bool b => a = b
  | .int a, .int b => a = b
  | .str a, .str b => a = b
  | .arr a, .arr b => pvEqList a b
  | .dict a, .dict b => pvEqMembers a b
  | .opq a, .opq b => a = b
  | _, _ => false

def pvEqList : List PyVal → List PyVal → Bool
  | [], [] => true
  | x :: xs, y :: ys => pvEq x y && pvEqList xs ys
  | _, _ => false

def pvEqMembers : List (String × PyVal) → List (String × PyVal) → Bool
  | [], [] => true
  | (k1, v1) :: xs, (k2, v2) :: ys => k1 = k2 && pvEq v1 v2 && pvEqMembers xs ys
  | _, _ => false
end

/-! Python dictionaries are insertion-ordered association lists with unique
keys.  `dictInsert` is a single `d[k] = v` assignment: an existing key keeps
its position and gets the new value, a fresh key is appended. -/

def containsKeyC (kvs : List (String × PyVal)) (k : String) : Bool :=
  kvs.any (fun kv => kv.1 = k)

def setKey : List (String × PyVal) → String → PyVal → List (String × PyVal)
  | [], _, _ => []
  | (k1, v1) :: rest, k, v => if k1 = k then (k1, v) :: rest else (k1, v1) :: setKey rest k v

def dictInsert (d : List (String × PyVal)) (k : String) (v : PyVal) : List (String × PyVal) :=
  if containsKeyC d k then setKey d k v else d ++ [(k, v)]

/-- Building a `dict` from a pair sequence (as `json.loads` does for object
members): later pairs with a duplicate key overwrite in place. -/
def pyDictOfPairs (ps : List (String × PyVal)) : List (String × PyVal) :=
  ps.foldl (fun d kv => dictInsert d kv.1 kv.2) []

/-- Python `d.update(new)`: each pair of `new` is assigned into `d` in order. -/
def dictUpdateList (d new : List (String × PyVal)) : List (String × PyVal) :=
  new.foldl (fun d kv => dictInsert d kv.1 kv.2) d

/-- Python `d[k]` / `k in d` lookup. -/
def pyLookup : List (String × PyVal) → String → Option PyVal
  | [], _ => none
  | (k1, v) :: rest, k => if k1 = k then some v else pyLookup rest k

/-- Python `d.get(k, default)`. -/
def pyGetD (kvs : List (String × PyVal)) (k : String) (dflt : PyVal) : PyVal :=
  match pyLookup kvs k with
  | some v => v
  | none => dflt

/-! Decimal rendering of integers (`str(n)` and the JSON number grammar). -/

def digitChar : Nat → Char
  | 0 => '0'
  | 1 => '1'
  | 2 => '2'
  | 3 => '3'
  | 4 => '4'
  | 5 => '5'
  | 6 => '6'
  | 7 => '7'
  | 8 => '8'
  | 9 => '9'
  | _ => '0'

def natCharsAux : Nat → Nat → List Char
  | 0, _ => []
  | fuel + 1, n =>
    if n < 10 then [digitChar n]
    else natCharsAux fuel (n / 10) ++ [digitChar (n % 10)]

def natChars (n : Nat) : List Char := natCharsAux (n + 1) n

def intChars (n : Int) : List Char :=
  if n < 0 then '-' :: natChars (-n).toNat else natChars n.toNat

/-- Python `str(n)` for an integer. -/
def intStr (n : Int) : String := String.mk (intChars n)

def digitsVal (ds : List Char) : Nat := ds.foldl (fun a c => 10 * a + (c.toNat - 48)) 0

/-- Python `s.isdigit()`, modelled over ASCII decimal digits. -/
def isDigitStr (s : String) : Bool := !s.data.isEmpty && s.data.all Char.isDigit

/-! JSON string escaping, exactly as `json.dumps(..., ensure_ascii=False)`
renders it: `"` and `\` get a backslash escape, the five control characters
with short names use those, any other control character below 0x20 becomes
a `\u00XX` escape, and everything else is emitted verbatim. -/

def hexDigitChar : Nat → Char
  | 0 => '0'
  | 1 => '1'
  | 2 => '2'
  | 3 => '3'
  | 4 => '4'
  | 5 => '5'
  | 6 => '6'
  | 7 => '7'
  | 8 => '8'
  | 9 => '9'
  | 10 => 'a'
  | 11 => 'b'
  | 12 => 'c'
  | 13 => 'd'
  | 14 => 'e'
  | 15 => 'f'
  | _ => '0'

def escChar (c : Char) : List Char :=
  if c = '"' then ['\\', '"']
  else if c = '\\' then ['\\', '\\']
  else if c = '\x08' then ['\\', 'b']
  else if c = '\x0c' then ['\\', 'f']
  else if c = '\n' then ['\\', 'n']
  else if c = '\r' then ['\\', 'r']
  else if c = '\t' then ['\\', 't']
  else if c.toNat < 32 then
    ['\\', 'u', '0', '0', hexDigitChar (c.toNat / 16), hexDigitChar (c.toNat % 16)]
  else [c]

def escString : List Char → List Char
  | [] => []
  | c :: cs => escChar c ++ escString cs

def quoteChars (cs : List Char) : List Char := '"' :: escString cs ++ ['"']

def spacesC (n : Nat) : List Char := List.replicate n ' '

/-! The renderer: `json.dumps(v, indent=2, ensure_ascii=False)`.  With a
non-None indent the separators are `","` and `": "`; every container member
goes on its own line indented two more spaces, and the closing bracket is
indented at the container level.  (`renderVal` is only applied to values
without `opq` inside; `jsonDumps` below performs that check, matching the
`TypeError` raised by the encoder.) -/

mutual
def renderVal : Nat → PyVal → List Char
  | _, .null => ['n', 'u', 'l', 'l']
  | _, .bool true => ['t', 'r', 'u', 'e']
  | _, .bool false => ['f', 'a', 'l', 's', 'e']
  | _, .int n => intChars n
  | _, .str s => quoteChars s.data
  | _, .opq _ => []
  | _, .arr [] => ['[', ']']
  | k, .arr (x :: xs) =>
      '[' :: renderItems (k + 1) (x :: xs) ++ '\n' :: spacesC (2 * k) ++ [']']
  | _, .dict [] => ['\x7b', '\x7d']
  | k, .dict (kv :: kvs) =>
      '\x7b' :: renderMembers (k + 1) (kv :: kvs) ++ '\n' :: spacesC (2 * k) ++ ['\x7d']
def renderItems : Nat → List PyVal → List Char
  | _, [] => []
  | k, [x] => '\n' :: spacesC (2 * k) ++ renderVal k x
  | k, x :: xs => '\n' :: spacesC (2 * k) ++ renderVal k x ++ ',' :: renderItems k xs
def renderMembers : Nat → List (String × PyVal) → List Char
  | _, [] => []
  | k, [(key, v)] => '\n' :: spacesC (2 * k) ++ quoteChars key.data ++ ':' :: ' ' :: renderVal k v
  | k, (key, v) :: kvs =>
      '\n' :: spacesC (2 * k) ++ quoteChars key.data ++ ':' :: ' ' :: renderVal k v ++
        ',' :: renderMembers k kvs
end

/-! Serializability (`json.dumps` succeeds) and well-formedness. -/

mutual
def pvSer : PyVal → Bool
  | .null => true
  | .bool _ => true
  | .int _ => true
  | .str _ => true
  | .opq _ => false
  | .arr xs => pvSerList xs
  | .dict kvs => pvSerMembers kvs
def pvSerList : List PyVal → Bool
  | [] => true
  | x :: xs => pvSer x && pvSerList xs
def pvSerMembers : List (String × PyVal) → Bool
  | [] => true
  | (_, v) :: kvs => pvSer v && pvSerMembers kvs
end

def nodupKeys : List (String × PyVal) → Bool
  | [] => true
  | (k, _) :: rest => !containsKeyC rest k && nodupKeys rest

/-! Every `dict` node (at any depth) of a `pvNodup` value has
pairwise-distinct keys.  This holds for every value that exists as a Python
object, since Python dictionaries cannot carry duplicate keys; it is stated
explicitly because the model represents dictionaries as association
lists. -/
mutual
def pvNodup : PyVal → Bool
  | .null => true
  | .bool _ => true
  | .int _ => true
  | .str _ => true
  | .opq _ => true
  | .arr xs => pvNodupList xs
  | .dict kvs => nodupKeys kvs && pvNodupMembers kvs
def pvNodupList : List PyVal → Bool
  | [] => true
  | x :: xs => pvNodup x && pvNodupList xs
def pvNodupMembers : List (String × PyVal) → Bool
  | [] => true
  | (_, v) :: kvs => pvNodup v && pvNodupMembers kvs
end

def pvWf (v : PyVal) : Bool := pvSer v && pvNodup v

/-- Python `json.dumps(v, indent=2, ensure_ascii=False)`: fails (raises
`TypeError`) exactly when the value contains a non-serializable object. -/
def jsonDumps (v : PyVal) : Option String :=
  if pvSer v then some (String.mk (renderVal 0 v)) else none

/-! The JSON reader (`json.loads`). -/

def isWsC (c : Char) : Bool := c = ' ' || c = '\t' || c = '\n' || c = '\r'

def skipWs : List Char → List Char
  | [] => []
  | c :: cs => if isWsC c then skipWs cs else c :: cs

def hexVal (c : Char) : Option Nat :=
  if '0' ≤ c ∧ c ≤ '9' then some (c.toNat - 48)
  else if 'a' ≤ c ∧ c ≤ 'f' then some (c.toNat - 87)
  else if 'A' ≤ c ∧ c ≤ 'F' then some (c.toNat - 55)
  else none

def consStr (c : Char) : Option (List Char × List Char) → Option (List Char × List Char)
  | some (cs, rest) => some (c :: cs, rest)
  | none => none

/-- Read the body of a JSON string (after the opening quote), returning the
decoded characters and the input after the closing quote. -/
def parseStrChars : List Char → Option (List Char × List Char)
  | [] => none
  | c :: cs =>
    if c = '"' then some ([], cs)
    else if c = '\\' then
      match cs with
      | [] => none
      | e :: cs1 =>
        if e = '"' then consStr '"' (parseStrChars cs1)
        else if e = '\\' then consStr '\\' (parseStrChars cs1)
        else if e = '/' then consStr '/' (parseStrChars cs1)
        else if e = 'b' then consStr '\x08' (parseStrChars cs1)
        else if e = 'f' then consStr '\x0c' (parseStrChars cs1)
        else if e = 'n' then consStr '\n' (parseStrChars cs1)
        else if e = 'r' then consStr '\r' (parseStrChars cs1)
        else if e = 't' then consStr '\t' (parseStrChars cs1)
        else if e = 'u' then
          match cs1 with
          | h1 :: h2 :: h3 :: h4 :: cs2 =>
            match hexVal h1, hexVal h2, hexVal h3, hexVal h4 with
            | some a, some b, some c2, some d =>
                consStr (Char.ofNat (((a * 16 + b) * 16 + c2) * 16 + d)) (parseStrChars cs2)
            | _, _, _, _ => none
          | _ => none
        else none
    else if c.toNat < 32 then none
    else consStr c (parseStrChars cs)

def splitDigits (cs : List Char) : List Char × List Char :=
  (cs.takeWhile Char.isDigit, cs.dropWhile Char.isDigit)

/-- Read a JSON integer whose first character `c` is a digit (rejecting a
leading zero followed by more digits, as the JSON grammar does). -/
def parseNum (c : Char) (rest : List Char) : Option (PyVal × List Char) :=
  match splitDigits (c :: rest) with
  | (ds, rest1) =>
    match ds with
    | [] => none
    | d :: ds1 => if d = '0' ∧ ds1 ≠ [] then none else some (.int (digitsVal ds), rest1)

mutual
def parseVal : Nat → List Char → Option (PyVal × List Char)
  | 0, _ => none
  | fuel + 1, cs =>
    match skipWs cs with
    | [] => none
    | c :: rest =>
      if c = 'n' then
        match rest with
        | 'u' :: 'l' :: 'l' :: r => some (.null, r)
        | _ => none
      else if c = 't' then
        match rest with
        | 'r' :: 'u' :: 'e' :: r => some (.bool true, r)
        | _ => none
      else if c = 'f' then
        match rest with
        | 'a' :: 'l' :: 's' :: 'e' :: r => some (.bool false, r)
        | _ => none
      else if c = '"' then
        match parseStrChars rest with
        | some (sl, rest1) => some (.str (String.mk sl), rest1)
        | none => none
      else if c = '[' then
        match skipWs rest with
        | ']' :: rest1 => some (.arr [], rest1)
        | cs1 =>
          match parseItems fuel cs1 with
          | some (vs, rest1) => some (.arr vs, rest1)
          | none => none
      else if c = '\x7b' then
        match skipWs rest with
        | '\x7d' :: rest1 => some (.dict [], rest1)
        | cs1 =>
          match parseMembers fuel cs1 with
          | some (ps, rest1) => some (.dict (pyDictOfPairs ps), rest1)
          | none => none
      else if c = '-' then
        match rest with
        | [] => none
        | d :: rest1 =>
          if d.isDigit then
            match parseNum d rest1 with
            | some (.int n, rest2) => some (.int (-n), rest2)
            | _ => none
          else none
      else if c.isDigit then parseNum c rest
      else none
def parseItems : Nat → List Char → Option (List PyVal × List Char)
  | 0, _ => none
  | fuel + 1, cs =>
    match parseVal fuel cs with
    | none => none
    | some (v, rest) =>
      match skipWs rest with
      | ',' :: rest1 =>
        match parseItems fuel rest1 with
        | some (vs, rest2) => some (v :: vs, rest2)
        | none => none
      | ']' :: rest1 => some ([v], rest1)
      | _ => none
def parseMembers : Nat → List Char → Option (List (String × PyVal) × List Char)
  | 0, _ => none
  | fuel + 1, cs =>
    match skipWs cs with
    | '"' :: cs1 =>
      match parseStrChars cs1 with
      | none => none
      | some (key, cs2) =>
        match skipWs cs2 with
        | ':' :: cs3 =>
          match parseVal fuel cs3 with
          | none => none
          | some (v, cs4) =>
            match skipWs cs4 with
            | ',' :: cs5 =>
              match parseMembers fuel cs5 with
              | some (ps, rest) => some ((String.mk key, v) :: ps, rest)
              | none => none
            | '\x7d' :: cs5 => some ([(String.mk key, v)], cs5)
            | _ => none
        | _ => none
    | _ => none
end

/-- Python `json.loads`: parse one value, allow trailing whitespace, reject
anything else left over.  The fuel `length + 1` is always sufficient, since
every recursive descent consumes at least one character of input. -/
def jsonParse (s : String) : Option PyVal :=
  match parseVal (s.data.length + 1) s.data with
  | some (v, rest) => if skipWs rest = [] then some v else none
  | none => none

/-! The profile data model and its operations (`number10.py`). -/

/-- The Python exception taxonomy that the codec can raise or catch.
`serializationError` and `deserializationError` are the custom classes of
the module; the rest are builtin exception types. -/
inductive PyError where
  | valueError (msg : String) : PyError
  | typeError (msg : String) : PyError
  | keyError (msg : String) : PyError
  | attributeError (msg : String) : PyError
  | serializationError (msg : String) : PyError
  | deserializationError (msg : String) : PyError
deriving Repr

def PyError.msg : PyError → String
  | .valueError m => m
  | .typeError m => m
  | .keyError m => m
  | .attributeError m => m
  | .serializationError m => m
  | .deserializationError m => m

/-- A `UserProfile` instance: the six instance attributes set by
`__init__` (and possibly overwritten by `from_dict`).  The attributes hold
arbitrary Python values exactly as the source stores whatever passed
validation (or was restored verbatim). -/
structure UserProfile where
  name : PyVal
  age : PyVal
  email : PyVal
  preferences : PyVal
  created_at : PyVal
  last_updated : PyVal
deriving Repr

/-- Python method `UserProfile._validate_name`: must be a `str`, non-empty after `strip`,
and at most 100 characters.  Returns the raised `ValueError`, if any. -/
def validate_name (name : PyVal) : Option PyError :=
  match name with
  | .str s =>
    if s.data.all (fun c => c.isWhitespace) then some (.valueError "Name cannot be empty")
    else if s.data.length > 100 then some (.valueError "Name too long (max 100 characters)")
    else none
  | _ => some (.valueError "Name must be a string")

/-- Python method `UserProfile._validate_age`: `isinstance(age, int)` (which a Python
`bool` also satisfies, being an `int` subclass with value 0 or 1, hence
always within range), and `0 <= age <= 150`. -/
def validate_age (age : PyVal) : Option PyError :=
  match age with
  | .int n =>
    if n < 0 ∨ n > 150 then some (.valueError "Age must be between 0 and 150") else none
  | .bool _ => none
  | _ => some (.valueError "Age must be an integer")

/-- Python method `UserProfile._validate_email`: must be a `str` containing `@` and `.`. -/
def validate_email (email : PyVal) : Option PyError :=
  match email with
  | .str s =>
    if ¬ (s.data.contains '@') ∨ ¬ (s.data.contains '.') then
      some (.valueError "Invalid email format")
    else none
  | _ => some (.valueError "Email must be a string")

/-- Python constructor `UserProfile.__init__(name, age, email, preferences)`: validates name,
age and email in that order (note: it does NOT validate the preference
values), then sets `preferences = preferences or {}` and stamps
`created_at = last_updated = now`. -/
def userProfileInit (name age email preferences : PyVal) (now : String) :
    Except PyError UserProfile :=
  match validate_name name with
  | some e => .error e
  | none =>
    match validate_age age with
    | some e => .error e
    | none =>
      match validate_email email with
      | some e => .error e
      | none =>
        .ok { name := name, age := age, email := email,
              preferences := if pyTruthy preferences then preferences else .dict [],
              created_at := .str now, last_updated := .str now }

/-- First preference entry whose value `json.dumps` cannot encode, as found
by the validation loop of `update_preferences`.  (Keys are strings by the
dictionary model, so the `isinstance(key, str)` check never fires.) -/
def firstBadPref : List (String × PyVal) → Option String
  | [] => none
  | (k, v) :: rest => if pvSer v then firstBadPref rest else some k

/-- Python method `UserProfile.update_preferences(new_preferences)`: requires a dict,
pre-checks every value for JSON serializability (raising a `ValueError`
naming the offending key before anything is mutated; the modelled message
omits the wrapped encoder-exception text that Python appends after it), then merges the new
entries into `self.preferences` and re-stamps `last_updated`.  The result is
the raised exception (if any) together with the post-state of the
receiver. -/
def UserProfile.update_preferences (p : UserProfile) (newPrefs : PyVal) (now : String) :
    Option PyError × UserProfile :=
  match newPrefs with
  | .dict kvs =>
    match firstBadPref kvs with
    | some k =>
      (some (.valueError ("Preference value for \x27" ++ k ++ "\x27 is not JSON serializable")), p)
    | none =>
      match p.preferences with
      | .dict old =>
        (none, { p with preferences := .dict (dictUpdateList old kvs),
                        last_updated := .str now })
      | _ =>
        (some (.attributeError "object has no attribute update"), p)
  | _ => (some (.valueError "Preferences must be a dictionary"), p)

/-- Python method `UserProfile.to_dict`: the seven-key record that gets serialized. -/
def UserProfile.to_dict (p : UserProfile) : PyVal :=
  .dict [("name", p.name), ("age", p.age), ("email", p.email),
         ("preferences", p.preferences), ("created_at", p.created_at),
         ("last_updated", p.last_updated), ("_version", .str "1.0")]

/-- Python classmethod `UserProfile.from_dict(data)`: requires `name`, `age`, `email` (in that
order, raising `DeserializationError` naming the first missing one), builds
the profile through the validated constructor with
`data.get("preferences", dict())`, then restores `created_at` and
`last_updated` verbatim from the record when present.  A `ValueError` or
`TypeError` escaping the body is re-wrapped as `DeserializationError`. -/
def UserProfile.from_dict (kvs : List (String × PyVal)) (now : String) :
    Except PyError UserProfile :=
  let body : Except PyError UserProfile :=
    if ¬ containsKeyC kvs "name" then
      .error (.deserializationError "Missing required field: name")
    else if ¬ containsKeyC kvs "age" then
      .error (.deserializationError "Missing required field: age")
    else if ¬ containsKeyC kvs "email" then
      .error (.deserializationError "Missing required field: email")
    else
      match userProfileInit (pyGetD kvs "name" .null) (pyGetD kvs "age" .null)
          (pyGetD kvs "email" .null) (pyGetD kvs "preferences" (.dict [])) now with
      | .error e => .error e
      | .ok prof =>
        let prof1 :=
          match pyLookup kvs "created_at" with
          | some v => { prof with created_at := v }
          | none => prof
        let prof2 :=
          match pyLookup kvs "last_updated" with
          | some v => { prof1 with last_updated := v }
          | none => prof1
        .ok prof2
  match body with
  | .error (.valueError m) => .error (.deserializationError ("Invalid data in dictionary: " ++ m))
  | .error (.typeError m) => .error (.deserializationError ("Invalid data in dictionary: " ++ m))
  | r => r

/-- Python function `serialize_user_profile(profile)` (no filename): convert to a dict,
encode as JSON text, then self-check by re-parsing the text and comparing
the `name` field with the source profile.  Every failure surfaces as
`SerializationError`: a `TypeError` from the encoder is caught by the
`except (TypeError, ValueError)` clause, and the inner integrity
`SerializationError` (or the inner re-wrap of a `KeyError` or parse error)
by the blanket `except Exception` clause. -/
def serialize_user_profile (p : UserProfile) : Except PyError String :=
  match jsonDumps p.to_dict with
  | none => .error (.serializationError "Data type error during serialization")
  | some json_data =>
    match jsonParse json_data with
    | none =>
      .error (.serializationError
        "Unexpected error during serialization: Serialization integrity check failed")
    | some parsed =>
      match parsed with
      | .dict kvs =>
        match pyLookup kvs "name" with
        | none =>
          .error (.serializationError
            "Unexpected error during serialization: Serialization integrity check failed")
        | some nameVal =>
          if pvEq nameVal p.name then .ok json_data
          else
            .error (.serializationError
              "Unexpected error during serialization: Data integrity check failed during serialization")
      | _ =>
        .error (.serializationError "Unexpected error during serialization")

/-- Python function `deserialize_user_profile(json_data)` (no filename): reject empty input,
parse the text (a `json.JSONDecodeError` is caught and re-raised as
`DeserializationError`, so no parser exception crosses the boundary),
require a dictionary, then build the profile via `from_dict`.  The outer
handlers re-wrap any `KeyError`, `ValueError`, or other exception (including
the module's own `DeserializationError`s raised inside the `try` body) as a
`DeserializationError`. -/
def deserialize_user_profile (now : String) (json_data : String) : Except PyError UserProfile :=
  let body : Except PyError UserProfile :=
    if json_data = "" then
      .error (.deserializationError "No JSON data provided for deserialization")
    else
      match jsonParse json_data with
      | none => .error (.deserializationError "Invalid JSON format")
      | some parsed =>
        match parsed with
        | .dict kvs => UserProfile.from_dict kvs now
        | _ => .error (.deserializationError "JSON data must represent a dictionary")
  match body with
  | .ok p => .ok p
  | .error (.keyError m) =>
    .error (.deserializationError ("Missing required field in JSON data: " ++ m))
  | .error (.valueError m) =>
    .error (.deserializationError ("Data validation error during deserialization: " ++ m))
  | .error e =>
    .error (.deserializationError ("Unexpected error during deserialization: " ++ e.msg))

/-! The recovery path (`backup_deserialization_attempt`). -/

/-! Python `repr` for the modelled values, used only through `str` applied
to non-string values.  String quoting inside containers is simplified (no
escape handling, single quotes always); no modelled code path inspects the
text produced for a container beyond storing it as a recovered name. -/

mutual
def pyRepr : PyVal → String
  | .null => "None"
  | .bool true => "True"
  | .bool false => "False"
  | .int n => intStr n
  | .str s => "\x27" ++ s ++ "\x27"
  | .arr xs => "[" ++ pyReprList xs ++ "]"
  | .dict kvs => "\x7b" ++ pyReprMembers kvs ++ "\x7d"
  | .opq t => "<object " ++ intStr t ++ ">"
def pyReprList : List PyVal → String
  | [] => ""
  | [x] => pyRepr x
  | x :: xs => pyRepr x ++ ", " ++ pyReprList xs
def pyReprMembers : List (String × PyVal) → String
  | [] => ""
  | [(k, v)] => "\x27" ++ k ++ "\x27: " ++ pyRepr v
  | (k, v) :: kvs => "\x27" ++ k ++ "\x27: " ++ pyRepr v ++ ", " ++ pyReprMembers kvs
end

/-- Python `str(v)`: the value itself for a `str`, its `repr` otherwise. -/
def pyStr : PyVal → String
  | .str s => s
  | v => pyRepr v

/-- The age coercion of the recovery path:
`int(age) if isinstance(age, (int, float, str)) and str(age).isdigit() else 0`.
Floats are outside the value model; a `bool` is an `int` instance but
`str(True)`/`str(False)` are never digit strings. -/
def backupAgeCoerce (age : PyVal) : Int :=
  match age with
  | .int n => if isDigitStr (intStr n) then n else 0
  | .bool _ => 0
  | .str s => if isDigitStr s then (digitsVal s.data : Int) else 0
  | _ => 0

/-- The four constructor arguments assembled by the recovery path from a
parsed record. -/
def backupArgs (kvs : List (String × PyVal)) : PyVal × PyVal × PyVal × PyVal :=
  let name := pyGetD kvs "name" (.str "Unknown User")
  let age := pyGetD kvs "age" (.int 0)
  let email := pyGetD kvs "email" (.str "unknown@example.com")
  let preferences := pyGetD kvs "preferences" (.dict [])
  (.str (if pyTruthy name then pyStr name else "Unknown User"),
   .int (backupAgeCoerce age),
   .str (if pyTruthy email then pyStr email else "unknown@example.com"),
   match preferences with
   | .dict l => .dict l
   | _ => .dict [])

/-- Python function `backup_deserialization_attempt(json_data)`: best-effort recovery.  The
whole body runs under a blanket `except Exception: return None`, so a parse
failure, an `AttributeError` from calling `.get` on a non-dict parse
result, or a `ValueError` from the validated constructor all yield `none`. -/
def backup_deserialization_attempt (now : String) (json_data : String) : Option UserProfile :=
  match jsonParse json_data with
  | none => none
  | some (.dict kvs) =>
    match backupArgs kvs with
    | (nameArg, ageArg, emailArg, prefArg) =>
      match userProfileInit nameArg ageArg emailArg prefArg now with
      | .ok p => some p
      | .error _ => none
  | some _ => none

/-- The timestamp invariant of the specification: both timestamps are
strings and `lastUpdated` is (lexicographically, being ISO-8601 text) at
least `createdAt`. -/
def tsInvariant (p : UserProfile) : Prop :=
  ∃ c l, p.created_at = .str c ∧ p.last_updated = .str l ∧ c ≤ l

/-- A validly constructed profile, per the data-model constraints of the
specification: the three scalar fields pass the constructor validators, the
preferences are a well-formed dictionary (JSON-serializable values,
duplicate-free keys at every level), and the timestamps are strings. -/
def validProfileB (p : UserProfile) : Bool :=
  (validate_name p.name).isNone &&
  (validate_age p.age).isNone &&
  (validate_email p.email).isNone &&
  p.preferences.isDict && pvWf p.preferences &&
  p.created_at.isStr && p.last_updated.isStr

/-! Proof infrastructure: fuel bounds for the reader, and the shapes of the
text that follows a rendered container member. -/

mutual
def needV : PyVal → Nat
  | .null => 1
  | .bool _ => 1
  | .int _ => 1
  | .str _ => 1
  | .opq _ => 0
  | .arr [] => 1
  | .arr (x :: xs) => 1 + needL (x :: xs)
  | .dict [] => 1
  | .dict (kv :: kvs) => 1 + needM (kv :: kvs)
def needL : List PyVal → Nat
  | [] => 0
  | x :: xs => 1 + max (needV x) (needL xs)
def needM : List (String × PyVal) → Nat
  | [] => 0
  | (_, v) :: kvs => 1 + max (needV v) (needM kvs)
end

def itemsGlue (j m : Nat) (xs : List PyVal) (rest : List Char) : List Char :=
  match xs with
  | [] => '\n' :: spacesC m ++ ']' :: rest
  | _ :: _ => ',' :: renderItems j xs ++ '\n' :: spacesC m ++ ']' :: rest

def membersGlue (j m : Nat) (kvs : List (String × PyVal)) (rest : List Char) : List Char :=
  match kvs with
  | [] => '\n' :: spacesC m ++ '\x7d' :: rest
  | _ :: _ => ',' :: renderMembers j kvs ++ '\n' :: spacesC m ++ '\x7d' :: rest

def noDigitStart : List Char → Bool
  | [] => true
  | c :: _ => !c.isDigit

/-! Basic character and whitespace lemmas. -/

theorem char_ne_of_isDigit {c d : Char} (h : c.isDigit = true) (hd : d.isDigit = false) :
    c ≠ d := by
  intro e
  subst e
  rw [h] at hd
  exact Bool.noConfusion hd

theorem isWsC_eq_false_of_isDigit {c : Char} (h : c.isDigit = true) : isWsC c = false := by
  have h1 : c ≠ ' ' := char_ne_of_isDigit h (by decide)
  have h2 : c ≠ '\t' := char_ne_of_isDigit h (by decide)
  have h3 : c ≠ '\n' := char_ne_of_isDigit h (by decide)
  have h4 : c ≠ '\r' := char_ne_of_isDigit h (by decide)
  simp [isWsC, h1, h2, h3, h4]

theorem skipWs_cons_of_not_ws {c : Char} (h : isWsC c = false) (cs : List Char) :
    skipWs (c :: cs) = c :: cs := by
  simp [skipWs, h]

theorem skipWs_append_of_ws :
    ∀ (l : List Char), (∀ c ∈ l, isWsC c = true) → ∀ r, skipWs (l ++ r) = skipWs r
  | [], _, r => rfl
  | c :: l, h, r => by
    have hc : isWsC c = true := h c (List.mem_cons_self c l)
    have ih := skipWs_append_of_ws l (fun d hd => h d (List.mem_cons_of_mem _ hd)) r
    simp [skipWs, hc, ih]

theorem spacesC_ws (n : Nat) : ∀ c ∈ spacesC n, isWsC c = true := by
  intro c hc
  have : c = ' ' := (List.eq_of_mem_replicate hc)
  subst this
  decide

theorem skipWs_newline_spaces (m : Nat) (r : List Char) :
    skipWs ('\n' :: (spacesC m ++ r)) = skipWs r := by
  have h1 : skipWs (spacesC m ++ r) = skipWs r := skipWs_append_of_ws _ (spacesC_ws m) r
  have h2 : isWsC '\n' = true := by decide
  simp [skipWs, h2, h1]

/-! Decimal digits: rendering and reading are mutually inverse. -/

theorem digitChar_isDigit : ∀ n, n < 10 → (digitChar n).isDigit = true := by decide

theorem digitChar_toNat : ∀ n, n < 10 → (digitChar n).toNat = 48 + n := by decide

theorem digitChar_ne_zero : ∀ n, n < 10 → n ≠ 0 → digitChar n ≠ '0' := by decide

theorem digitsVal_append_last (l : List Char) (c : Char) :
    digitsVal (l ++ [c]) = 10 * digitsVal l + (c.toNat - 48) := by
  simp [digitsVal, List.foldl_append]

theorem natCharsAux_spec : ∀ fuel n, n < fuel →
    (∀ c ∈ natCharsAux fuel n, c.isDigit = true) ∧
    digitsVal (natCharsAux fuel n) = n ∧
    natCharsAux fuel n ≠ [] ∧
    (n ≠ 0 → ∀ d ds, natCharsAux fuel n = d :: ds → d ≠ '0') := by
  intro fuel
  induction fuel with
  | zero => intro n h; omega
  | succ f ih =>
    intro n h
    by_cases h10 : n < 10
    · refine ⟨?_, ?_, ?_, ?_⟩
      · intro c hc
        simp [natCharsAux, h10] at hc
        subst hc
        exact digitChar_isDigit n h10
      · simp [natCharsAux, h10, digitsVal, digitChar_toNat n h10]
      · simp [natCharsAux, h10]
      · intro hn d ds heq
        simp [natCharsAux, h10] at heq
        rw [← heq.1]
        exact digitChar_ne_zero n h10 hn
    · have hn0 : n / 10 < f := by omega
      obtain ⟨ihd, ihv, ihne, ihz⟩ := ih (n / 10) hn0
      have hunf : natCharsAux (f + 1) n = natCharsAux f (n / 10) ++ [digitChar (n % 10)] := by
        simp [natCharsAux, h10]
      refine ⟨?_, ?_, ?_, ?_⟩
      · intro c hc
        rw [hunf] at hc
        rcases List.mem_append.mp hc with h1 | h1
        · exact ihd c h1
        · simp at h1
          subst h1
          exact digitChar_isDigit _ (Nat.mod_lt n (by omega))
      · rw [hunf, digitsVal_append_last, ihv, digitChar_toNat _ (Nat.mod_lt n (by omega))]
        omega
      · rw [hunf]
        simp
      · intro _ d ds heq
        rw [hunf] at heq
        obtain ⟨d0, ds0, hds0⟩ : ∃ d0 ds0, natCharsAux f (n / 10) = d0 :: ds0 := by
          cases hcc : natCharsAux f (n / 10) with
          | nil => exact absurd hcc ihne
          | cons a b => exact ⟨a, b, rfl⟩
        rw [hds0] at heq
        simp at heq
        rw [← heq.1]
        exact ihz (by omega) d0 ds0 hds0

theorem natChars_spec (n : Nat) :
    (∀ c ∈ natChars n, c.isDigit = true) ∧
    digitsVal (natChars n) = n ∧
    natChars n ≠ [] ∧
    (n ≠ 0 → ∀ d ds, natChars n = d :: ds → d ≠ '0') :=
  natCharsAux_spec (n + 1) n (Nat.lt_succ_self n)

theorem takeWhile_digits_append :
    ∀ (ds : List Char), (∀ c ∈ ds, c.isDigit = true) → ∀ r, noDigitStart r = true →
      (ds ++ r).takeWhile Char.isDigit = ds ∧ (ds ++ r).dropWhile Char.isDigit = r
  | [], _, r, hr => by
    cases r with
    | nil => exact ⟨rfl, rfl⟩
    | cons c t =>
      have hc : c.isDigit = false := by
        simp [noDigitStart] at hr
        exact hr
      constructor
      · simp [List.takeWhile_cons, hc]
      · simp [List.dropWhile_cons, hc]
  | d :: ds, h, r, hr => by
    have hd : d.isDigit = true := h d (List.mem_cons_self d ds)
    have ih := takeWhile_digits_append ds (fun c hc => h c (List.mem_cons_of_mem _ hc)) r hr
    constructor
    · simp [List.takeWhile_cons, hd, ih.1]
    · simp [List.dropWhile_cons, hd, ih.2]

theorem parseNum_natChars (n : Nat) (rest : List Char) (hr : noDigitStart rest = true) :
    ∀ d ds, natChars n = d :: ds → parseNum d (ds ++ rest) = some (.int n, rest) := by
  intro d ds heq
  obtain ⟨hdig, hval, _, hz⟩ := natChars_spec n
  have hsplit := takeWhile_digits_append (natChars n) hdig rest hr
  rw [heq] at hsplit
  have h1 : (d :: (ds ++ rest)).takeWhile Char.isDigit = d :: ds := by
    have := hsplit.1
    simpa using this
  have h2 : (d :: (ds ++ rest)).dropWhile Char.isDigit = rest := by
    have := hsplit.2
    simpa using this
  have hnz : ¬(d = '0' ∧ ds ≠ []) := by
    rintro ⟨rfl, hds⟩
    by_cases hn0 : n = 0
    · subst hn0
      have h0 : natChars 0 = ['0'] := by decide
      rw [h0] at heq
      simp at heq
      exact hds heq
    · exact hz hn0 _ _ heq rfl
  simp only [parseNum, splitDigits, h1, h2]
  rw [← heq, hval]
  simp [hnz]

/-! String escaping: the reader inverts the renderer escape-for-escape. -/

theorem hexVal_hexDigitChar : ∀ n, n < 16 → hexVal (hexDigitChar n) = some n := by decide

theorem charOfNat_toNat (c : Char) (h : c.toNat < 32) : Char.ofNat c.toNat = c := by
  have hv : c.toNat.isValidChar := by
    left
    exact Nat.lt_trans h (by norm_num)
  apply Char.ext
  rw [Char.ofNat, dif_pos hv]
  apply UInt32.ext
  rw [Char.ofNatAux]
  rfl

theorem parseStrChars_escString :
    ∀ (cs rest : List Char), parseStrChars (escString cs ++ '"' :: rest) = some (cs, rest)
  | [], rest => by
    rw [show escString [] ++ '"' :: rest = '"' :: rest from rfl, parseStrChars.eq_def]
    rfl
  | c :: cs, rest => by
    have ih := parseStrChars_escString cs rest
    by_cases h1 : c = '"'
    · subst h1
      rw [show escString ('"' :: cs) ++ '"' :: rest =
            '\\' :: '"' :: (escString cs ++ '"' :: rest) from rfl, parseStrChars.eq_def]
      show consStr '"' (parseStrChars (escString cs ++ '"' :: rest)) = _
      rw [ih]
      rfl
    · by_cases h2 : c = '\\'
      · subst h2
        rw [show escString ('\\' :: cs) ++ '"' :: rest =
              '\\' :: '\\' :: (escString cs ++ '"' :: rest) from rfl, parseStrChars.eq_def]
        show consStr '\\' (parseStrChars (escString cs ++ '"' :: rest)) = _
        rw [ih]
        rfl
      · by_cases h3 : c = '\x08'
        · subst h3
          rw [show escString ('\x08' :: cs) ++ '"' :: rest =
                '\\' :: 'b' :: (escString cs ++ '"' :: rest) from rfl, parseStrChars.eq_def]
          show consStr '\x08' (parseStrChars (escString cs ++ '"' :: rest)) = _
          rw [ih]
          rfl
        · by_cases h4 : c = '\x0c'
          · subst h4
            rw [show escString ('\x0c' :: cs) ++ '"' :: rest =
                  '\\' :: 'f' :: (escString cs ++ '"' :: rest) from rfl, parseStrChars.eq_def]
            show consStr '\x0c' (parseStrChars (escString cs ++ '"' :: rest)) = _
            rw [ih]
            rfl
          · by_cases h5 : c = '\n'
            · subst h5
              rw [show escString ('\n' :: cs) ++ '"' :: rest =
                    '\\' :: 'n' :: (escString cs ++ '"' :: rest) from rfl, parseStrChars.eq_def]
              show consStr '\n' (parseStrChars (escString cs ++ '"' :: rest)) = _
              rw [ih]
              rfl
            · by_cases h6 : c = '\r'
              · subst h6
                rw [show escString ('\r' :: cs) ++ '"' :: rest =
                      '\\' :: 'r' :: (escString cs ++ '"' :: rest) from rfl, parseStrChars.eq_def]
                show consStr '\r' (parseStrChars (escString cs ++ '"' :: rest)) = _
                rw [ih]
                rfl
              · by_cases h7 : c = '\t'
                · subst h7
                  rw [show escString ('\t' :: cs) ++ '"' :: rest =
                        '\\' :: 't' :: (escString cs ++ '"' :: rest) from rfl, parseStrChars.eq_def]
                  show consStr '\t' (parseStrChars (escString cs ++ '"' :: rest)) = _
                  rw [ih]
                  rfl
                · by_cases h8 : c.toNat < 32
                  · have hd : c.toNat / 16 < 16 := by omega
                    have hm : c.toNat % 16 < 16 := by omega
                    have e1 : escString (c :: cs) ++ '"' :: rest =
                        '\\' :: 'u' :: '0' :: '0' :: hexDigitChar (c.toNat / 16) ::
                          hexDigitChar (c.toNat % 16) :: (escString cs ++ '"' :: rest) := by
                      simp [escString, escChar, h1, h2, h3, h4, h5, h6, h7, h8]
                    rw [e1, parseStrChars.eq_def]
                    show (match hexVal '0', hexVal '0', hexVal (hexDigitChar (c.toNat / 16)),
                            hexVal (hexDigitChar (c.toNat % 16)) with
                          | some a, some b, some c2, some d =>
                              consStr (Char.ofNat (((a * 16 + b) * 16 + c2) * 16 + d))
                                (parseStrChars (escString cs ++ '"' :: rest))
                          | _, _, _, _ => none) = _
                    rw [hexVal_hexDigitChar _ hd, hexVal_hexDigitChar _ hm,
                      show hexVal '0' = some 0 from rfl]
                    show consStr (Char.ofNat (((0 * 16 + 0) * 16 + c.toNat / 16) * 16 +
                        c.toNat % 16)) (parseStrChars (escString cs ++ '"' :: rest)) = _
                    rw [show ((0 * 16 + 0) * 16 + c.toNat / 16) * 16 + c.toNat % 16 =
                          c.toNat from by omega,
                      charOfNat_toNat c h8, ih]
                    rfl
                  · have e1 : escString (c :: cs) ++ '"' :: rest =
                        c :: (escString cs ++ '"' :: rest) := by
                      simp [escString, escChar, h1, h2, h3, h4, h5, h6, h7, h8]
                    rw [e1, parseStrChars.eq_def]
                    simp only [if_neg h1, if_neg h2, if_neg h8]
                    rw [ih]
                    rfl

/-! Rebuilding an object from its member list is the identity when the keys
are pairwise distinct. -/

theorem containsKeyC_append (a b : List (String × PyVal)) (k : String) :
    containsKeyC (a ++ b) k = (containsKeyC a k || containsKeyC b k) := by
  simp [containsKeyC, List.any_append]

theorem foldl_dictInsert_nodup :
    ∀ (ps acc : List (String × PyVal)),
      (∀ kv ∈ ps, containsKeyC acc kv.1 = false) → nodupKeys ps = true →
      List.foldl (fun d kv => dictInsert d kv.1 kv.2) acc ps = acc ++ ps
  | [], acc, _, _ => by simp
  | (k, v) :: ps, acc, hacc, hnd => by
    have hk : containsKeyC acc k = false := hacc (k, v) (List.mem_cons_self _ _)
    have hnd1 : nodupKeys ps = true := by
      simp [nodupKeys] at hnd
      exact hnd.2
    have hkps : containsKeyC ps k = false := by
      simp [nodupKeys] at hnd
      exact hnd.1
    have hstep : dictInsert acc k v = acc ++ [(k, v)] := by
      simp [dictInsert, hk]
    have hacc1 : ∀ kv ∈ ps, containsKeyC (acc ++ [(k, v)]) kv.1 = false := by
      intro kv hkv
      rw [containsKeyC_append]
      have h1 : containsKeyC acc kv.1 = false := hacc kv (List.mem_cons_of_mem _ hkv)
      have h2 : containsKeyC [(k, v)] kv.1 = false := by
        have hne : ¬ (kv.1 = k) := by
          intro he
          have hmem : containsKeyC ps k = true := by
            unfold containsKeyC
            rw [List.any_eq_true]
            exact ⟨kv, hkv, by simpa using he⟩
          rw [hmem] at hkps
          exact Bool.noConfusion hkps
        simp [containsKeyC]
        intro he
        exact hne he.symm
      rw [h1, h2]
      rfl
    calc List.foldl (fun d kv => dictInsert d kv.1 kv.2) acc ((k, v) :: ps)
      = List.foldl (fun d kv => dictInsert d kv.1 kv.2) (acc ++ [(k, v)]) ps := by
          simp [hstep]
    _ = (acc ++ [(k, v)]) ++ ps := foldl_dictInsert_nodup ps (acc ++ [(k, v)]) hacc1 hnd1
    _ = acc ++ (k, v) :: ps := by simp

theorem pyDictOfPairs_eq_self (ps : List (String × PyVal)) (h : nodupKeys ps = true) :
    pyDictOfPairs ps = ps := by
  have := foldl_dictInsert_nodup ps [] (by intro kv _; rfl) h
  simpa [pyDictOfPairs] using this

/-! The first character of any rendered serializable value: never
whitespace, never a closing bracket, never a comma. -/

theorem renderVal_head (k : Nat) (v : PyVal) (hs : pvSer v = true) :
    ∃ c t, renderVal k v = c :: t ∧ isWsC c = false ∧ c ≠ ']' ∧ c ≠ '\x7d' ∧ c ≠ ',' := by
  match v with
  | .null => exact ⟨'n', _, rfl, by decide, by decide, by decide, by decide⟩
  | .bool true => exact ⟨'t', _, rfl, by decide, by decide, by decide, by decide⟩
  | .bool false =>
    exact ⟨'f', _, rfl, by decide, by decide, by decide, by decide⟩
  | .str s =>
    exact ⟨'"', _, rfl, by decide, by decide, by decide, by decide⟩
  | .opq t => simp [pvSer] at hs
  | .arr [] => exact ⟨'[', _, rfl, by decide, by decide, by decide, by decide⟩
  | .arr (x :: xs) =>
    exact ⟨'[', _, rfl, by decide, by decide, by decide, by decide⟩
  | .dict [] =>
    exact ⟨'\x7b', _, rfl, by decide, by decide, by decide, by decide⟩
  | .dict (kv :: kvs) =>
    exact ⟨'\x7b', _, rfl, by decide, by decide, by decide, by decide⟩
  | .int n =>
    by_cases hn : n < 0
    · refine ⟨'-', natChars (-n).toNat, ?_, by decide, by decide, by decide, by decide⟩
      simp [renderVal, intChars, hn]
    · obtain ⟨d, ds, hds⟩ : ∃ d ds, natChars n.toNat = d :: ds := by
        obtain ⟨_, _, hne, _⟩ := natChars_spec n.toNat
        cases hcc : natChars n.toNat with
        | nil => exact absurd hcc hne
        | cons a b => exact ⟨a, b, rfl⟩
      have hd : d.isDigit = true :=
        (natChars_spec n.toNat).1 d (by rw [hds]; exact List.mem_cons_self _ _)
      refine ⟨d, ds, ?_, isWsC_eq_false_of_isDigit hd, char_ne_of_isDigit hd (by decide),
        char_ne_of_isDigit hd (by decide), char_ne_of_isDigit hd (by decide)⟩
      simp [renderVal, intChars, hn, hds]

/-! Leading whitespace is transparent to the readers. -/

theorem parseVal_ws (fuel : Nat) (l cs : List Char) (h : ∀ c ∈ l, isWsC c = true) :
    parseVal fuel (l ++ cs) = parseVal fuel cs := by
  cases fuel with
  | zero => rfl
  | succ f =>
    have hsk : skipWs (l ++ cs) = skipWs cs := skipWs_append_of_ws l h cs
    rw [parseVal.eq_def, parseVal.eq_def]
    simp only [hsk]

theorem parseItems_ws (fuel : Nat) (l cs : List Char) (h : ∀ c ∈ l, isWsC c = true) :
    parseItems fuel (l ++ cs) = parseItems fuel cs := by
  cases fuel with
  | zero => rfl
  | succ f =>
    have hpv : parseVal f (l ++ cs) = parseVal f cs := parseVal_ws f l cs h
    rw [parseItems.eq_def, parseItems.eq_def]
    simp only [hpv]

theorem parseMembers_ws (fuel : Nat) (l cs : List Char) (h : ∀ c ∈ l, isWsC c = true) :
    parseMembers fuel (l ++ cs) = parseMembers fuel cs := by
  cases fuel with
  | zero => rfl
  | succ f =>
    have hsk : skipWs (l ++ cs) = skipWs cs := skipWs_append_of_ws l h cs
    rw [parseMembers.eq_def, parseMembers.eq_def]
    simp only [hsk]

/-! Reading back a rendered scalar. -/

theorem parseVal_null (f : Nat) (rest : List Char) :
    parseVal (f + 1) (['n', 'u', 'l', 'l'] ++ rest) = some (.null, rest) := by
  rw [parseVal.eq_def]
  rfl

theorem parseVal_true (f : Nat) (rest : List Char) :
    parseVal (f + 1) (['t', 'r', 'u', 'e'] ++ rest) = some (.bool true, rest) := by
  rw [parseVal.eq_def]
  rfl

theorem parseVal_false (f : Nat) (rest : List Char) :
    parseVal (f + 1) (['f', 'a', 'l', 's', 'e'] ++ rest) = some (.bool false, rest) := by
  rw [parseVal.eq_def]
  rfl

theorem parseVal_str (f : Nat) (s rest : List Char) :
    parseVal (f + 1) (quoteChars s ++ rest) = some (.str (String.mk s), rest) := by
  rw [show quoteChars s ++ rest = '"' :: (escString s ++ '"' :: rest) from by
    simp [quoteChars]]
  rw [parseVal.eq_def]
  show (match parseStrChars (escString s ++ '"' :: rest) with
    | some (sl, rest1) => some (PyVal.str (String.mk sl), rest1)
    | none => none) = _
  rw [parseStrChars_escString s rest]

theorem parseVal_int (f : Nat) (n : Int) (rest : List Char) (hr : noDigitStart rest = true) :
    parseVal (f + 1) (intChars n ++ rest) = some (.int n, rest) := by
  by_cases hn : n < 0
  · have hds : ∃ d ds, natChars (-n).toNat = d :: ds := by
      obtain ⟨_, _, hne, _⟩ := natChars_spec (-n).toNat
      cases hcc : natChars (-n).toNat with
      | nil => exact absurd hcc hne
      | cons a b => exact ⟨a, b, rfl⟩
    obtain ⟨d, ds, hds⟩ := hds
    have hd : d.isDigit = true :=
      (natChars_spec (-n).toNat).1 d (by rw [hds]; exact List.mem_cons_self _ _)
    rw [show intChars n ++ rest = '-' :: (d :: (ds ++ rest)) from by
      simp [intChars, hn, hds]]
    rw [parseVal.eq_def]
    show (if d.isDigit = true then
        match parseNum d (ds ++ rest) with
        | some (.int n1, rest2) => some (.int (-n1), rest2)
        | _ => none
      else none) = some (PyVal.int n, rest)
    rw [if_pos hd, parseNum_natChars (-n).toNat rest hr d ds hds]
    show some (PyVal.int (-((-n).toNat : Int)), rest) = some (PyVal.int n, rest)
    have h1 : ((-n).toNat : Int) = -n := Int.toNat_of_nonneg (by omega)
    rw [h1, neg_neg]
  · have hds : ∃ d ds, natChars n.toNat = d :: ds := by
      obtain ⟨_, _, hne, _⟩ := natChars_spec n.toNat
      cases hcc : natChars n.toNat with
      | nil => exact absurd hcc hne
      | cons a b => exact ⟨a, b, rfl⟩
    obtain ⟨d, ds, hds⟩ := hds
    have hd : d.isDigit = true :=
      (natChars_spec n.toNat).1 d (by rw [hds]; exact List.mem_cons_self _ _)
    rw [show intChars n ++ rest = d :: (ds ++ rest) from by simp [intChars, hn, hds]]
    rw [parseVal.eq_def]
    have hsk : skipWs (d :: (ds ++ rest)) = d :: (ds ++ rest) :=
      skipWs_cons_of_not_ws (isWsC_eq_false_of_isDigit hd) _
    simp only [hsk]
    simp only [if_neg (char_ne_of_isDigit hd (by decide) : d ≠ 'n'),
      if_neg (char_ne_of_isDigit hd (by decide) : d ≠ 't'),
      if_neg (char_ne_of_isDigit hd (by decide) : d ≠ 'f'),
      if_neg (char_ne_of_isDigit hd (by decide) : d ≠ '"'),
      if_neg (char_ne_of_isDigit hd (by decide) : d ≠ '['),
      if_neg (char_ne_of_isDigit hd (by decide) : d ≠ '\x7b'),
      if_neg (char_ne_of_isDigit hd (by decide) : d ≠ '-'),
      if_pos hd]
    rw [parseNum_natChars n.toNat rest hr d ds hds]
    rw [Int.toNat_of_nonneg (by omega)]

/-! The reader fuel needed for a rendered value never exceeds the length of
the rendered text. -/

theorem intChars_ne_nil (n : Int) : intChars n ≠ [] := by
  unfold intChars
  by_cases hn : n < 0
  · simp [hn]
  · simp [hn]
    exact (natChars_spec n.toNat).2.2.1

mutual
theorem needV_le_len : ∀ (v : PyVal) (k : Nat), needV v ≤ (renderVal k v).length
  | .null, k => by simp [needV, renderVal]
  | .bool true, k => by simp [needV, renderVal]
  | .bool false, k => by simp [needV, renderVal]
  | .int n, k => by
    have h := intChars_ne_nil n
    have : 0 < (intChars n).length := List.length_pos.mpr h
    simp only [needV, renderVal]
    omega
  | .str s, k => by simp [needV, renderVal, quoteChars]
  | .opq t, k => by simp [needV]
  | .arr [], k => by simp [needV, renderVal]
  | .arr (x :: xs), k => by
    have h := needL_le_len x xs (k + 1)
    simp only [needV, renderVal, List.length_append, List.length_cons]
    omega
  | .dict [], k => by simp [needV, renderVal]
  | .dict ((key, v) :: kvs), k => by
    have h := needM_le_len key v kvs (k + 1)
    simp only [needV, renderVal, List.length_append, List.length_cons]
    omega
termination_by v k => sizeOf v
theorem needL_le_len : ∀ (x : PyVal) (xs : List PyVal) (k : Nat),
    needL (x :: xs) ≤ (renderItems k (x :: xs)).length
  | x, [], k => by
    have h := needV_le_len x k
    simp only [needL, renderItems, List.length_append, List.length_cons]
    omega
  | x, y :: ys, k => by
    have h1 := needV_le_len x k
    have h2 := needL_le_len y ys k
    simp only [needL, renderItems, List.length_append, List.length_cons] at h2 ⊢
    omega
termination_by x xs k => sizeOf x + sizeOf xs
theorem needM_le_len : ∀ (key : String) (v : PyVal) (kvs : List (String × PyVal)) (k : Nat),
    needM ((key, v) :: kvs) ≤ (renderMembers k ((key, v) :: kvs)).length
  | key, v, [], k => by
    have h := needV_le_len v k
    simp only [needM, renderMembers, List.length_append, List.length_cons]
    omega
  | key, v, (key2, v2) :: kvs, k => by
    have h1 := needV_le_len v k
    have h2 := needM_le_len key2 v2 kvs k
    simp only [needM, renderMembers, List.length_append, List.length_cons] at h2 ⊢
    omega
termination_by key v kvs k => sizeOf v + sizeOf kvs
end

/-! Glue facts for container round trips. -/

theorem noDigitStart_itemsGlue (j m : Nat) (xs : List PyVal) (rest : List Char) :
    noDigitStart (itemsGlue j m xs rest) = true := by
  cases xs with
  | nil => simp [itemsGlue, noDigitStart]
  | cons y ys => simp [itemsGlue, noDigitStart]

theorem noDigitStart_membersGlue (j m : Nat) (kvs : List (String × PyVal))
    (rest : List Char) : noDigitStart (membersGlue j m kvs rest) = true := by
  cases kvs with
  | nil => simp [membersGlue, noDigitStart]
  | cons kv kvs2 => simp [membersGlue, noDigitStart]

theorem nl_spaces_ws (n : Nat) : ∀ c ∈ '\n' :: spacesC n, isWsC c = true := by
  intro c hc
  rcases List.mem_cons.mp hc with h | h
  · subst h
    decide
  · exact spacesC_ws n c h

theorem renderItems_cons_glue (j m : Nat) (y : PyVal) (ys : List PyVal) (rest : List Char) :
    renderItems j (y :: ys) ++ '\n' :: spacesC m ++ ']' :: rest =
      '\n' :: (spacesC (2 * j) ++ (renderVal j y ++ itemsGlue j m ys rest)) := by
  cases ys with
  | nil => simp [renderItems, itemsGlue]
  | cons z zs => simp [renderItems, itemsGlue]

theorem renderMembers_cons_glue (j m : Nat) (key : String) (v : PyVal)
    (kvs : List (String × PyVal)) (rest : List Char) :
    renderMembers j ((key, v) :: kvs) ++ '\n' :: spacesC m ++ '\x7d' :: rest =
      '\n' :: (spacesC (2 * j) ++
        (quoteChars key.data ++ ':' :: ' ' :: (renderVal j v ++ membersGlue j m kvs rest))) := by
  cases kvs with
  | nil => simp [renderMembers, membersGlue]
  | cons kv kvs2 => simp [renderMembers, membersGlue]

theorem skipWs_items_input (j m : Nat) (x : PyVal) (xs : List PyVal) (rest : List Char)
    (hs : pvSer x = true) :
    skipWs (renderItems j (x :: xs) ++ '\n' :: spacesC m ++ ']' :: rest) =
      renderVal j x ++ itemsGlue j m xs rest := by
  rw [renderItems_cons_glue j m x xs rest, skipWs_newline_spaces]
  obtain ⟨c, t, hct, hcw, _, _, _⟩ := renderVal_head j x hs
  rw [hct, List.cons_append, skipWs_cons_of_not_ws hcw, ← List.cons_append, ← hct]

theorem skipWs_members_input (j m : Nat) (key : String) (v : PyVal)
    (kvs : List (String × PyVal)) (rest : List Char) :
    skipWs (renderMembers j ((key, v) :: kvs) ++ '\n' :: spacesC m ++ '\x7d' :: rest) =
      quoteChars key.data ++ ':' :: ' ' :: (renderVal j v ++ membersGlue j m kvs rest) := by
  rw [renderMembers_cons_glue j m key v kvs rest, skipWs_newline_spaces]
  rw [show quoteChars key.data ++ ':' :: ' ' :: (renderVal j v ++ membersGlue j m kvs rest) =
    '"' :: (escString key.data ++ '"' :: (':' :: ' ' ::
      (renderVal j v ++ membersGlue j m kvs rest))) from by simp [quoteChars]]
  exact skipWs_cons_of_not_ws (by decide) _

theorem needL_succ_bound {x : PyVal} {xs : List PyVal} {f : Nat}
    (h : needL (x :: xs) ≤ f + 1) : needV x ≤ f ∧ needL xs ≤ f := by
  simp only [needL] at h
  omega

theorem needM_succ_bound {key : String} {v : PyVal} {kvs : List (String × PyVal)} {f : Nat}
    (h : needM ((key, v) :: kvs) ≤ f + 1) : needV v ≤ f ∧ needM kvs ≤ f := by
  simp only [needM] at h
  omega

/-! The round trip: reading back a rendered value yields the value itself.
Proved mutually over values, array item lists, and object member lists. -/

mutual
theorem rt_val : ∀ (v : PyVal), pvSer v = true → pvNodup v = true →
    ∀ (fuel k : Nat) (rest : List Char), needV v ≤ fuel → noDigitStart rest = true →
    parseVal fuel (renderVal k v ++ rest) = some (v, rest)
  | .null, _, _, fuel, k, rest, hf, _ => by
    cases fuel with
    | zero => simp [needV] at hf
    | succ f => exact parseVal_null f rest
  | .bool true, _, _, fuel, k, rest, hf, _ => by
    cases fuel with
    | zero => simp [needV] at hf
    | succ f => exact parseVal_true f rest
  | .bool false, _, _, fuel, k, rest, hf, _ => by
    cases fuel with
    | zero => simp [needV] at hf
    | succ f => exact parseVal_false f rest
  | .int n, _, _, fuel, k, rest, hf, hr => by
    cases fuel with
    | zero => simp [needV] at hf
    | succ f => exact parseVal_int f n rest hr
  | .str s, _, _, fuel, k, rest, hf, _ => by
    cases fuel with
    | zero => simp [needV] at hf
    | succ f => exact parseVal_str f s.data rest
  | .opq t, hs, _, fuel, k, rest, hf, _ => by simp [pvSer] at hs
  | .arr [], _, _, fuel, k, rest, hf, _ => by
    cases fuel with
    | zero => simp [needV] at hf
    | succ f =>
      rw [parseVal.eq_def]
      rfl
  | .arr (x :: xs), hs, hn, fuel, k, rest, hf, hr => by
    cases fuel with
    | zero => simp [needV, needL] at hf
    | succ f =>
      have hs1 : pvSer x = true ∧ pvSerList xs = true := by
        simp [pvSer, pvSerList] at hs
        exact hs
      have hn1 : pvNodup x = true ∧ pvNodupList xs = true := by
        simp [pvNodup, pvNodupList] at hn
        exact hn
      have hfl : needL (x :: xs) ≤ f := by
        simp only [needV] at hf
        omega
      rw [show renderVal k (.arr (x :: xs)) ++ rest =
        '[' :: (renderItems (k + 1) (x :: xs) ++ '\n' :: spacesC (2 * k) ++ ']' :: rest) from by
          simp [renderVal]]
      rw [parseVal.eq_def]
      show (match skipWs (renderItems (k + 1) (x :: xs) ++
              '\n' :: spacesC (2 * k) ++ ']' :: rest) with
        | ']' :: rest1 => some (PyVal.arr [], rest1)
        | cs1 =>
          match parseItems f cs1 with
          | some (vs, rest1) => some (PyVal.arr vs, rest1)
          | none => none) = some (PyVal.arr (x :: xs), rest)
      rw [skipWs_items_input (k + 1) (2 * k) x xs rest hs1.1]
      obtain ⟨c, t, hct, hcw, hcr, hcd, hcc⟩ := renderVal_head (k + 1) x hs1.1
      rw [hct, List.cons_append]
      split
      next rest1 heq =>
        injection heq with e1 e2
        exact absurd e1 hcr
      next cs1 hne =>
        rw [← List.cons_append, ← hct,
          rt_items x xs hs1.1 hn1.1 hs1.2 hn1.2 f (k + 1) (2 * k) rest hfl]
  | .dict [], _, _, fuel, k, rest, hf, _ => by
    cases fuel with
    | zero => simp [needV] at hf
    | succ f =>
      rw [parseVal.eq_def]
      rfl
  | .dict ((key, v) :: kvs), hs, hn, fuel, k, rest, hf, hr => by
    cases fuel with
    | zero => simp [needV, needM] at hf
    | succ f =>
      have hs1 : pvSer v = true ∧ pvSerMembers kvs = true := by
        simp [pvSer, pvSerMembers] at hs
        exact hs
      have hn1 : (nodupKeys ((key, v) :: kvs) = true ∧ pvNodup v = true) ∧
          pvNodupMembers kvs = true := by
        simp [pvNodup, pvNodupMembers, nodupKeys] at hn
        exact ⟨⟨by simp [nodupKeys, hn.1.1, hn.1.2], hn.2.1⟩, hn.2.2⟩
      have hfm : needM ((key, v) :: kvs) ≤ f := by
        simp only [needV] at hf
        omega
      rw [show renderVal k (.dict ((key, v) :: kvs)) ++ rest =
        '\x7b' :: (renderMembers (k + 1) ((key, v) :: kvs) ++
          '\n' :: spacesC (2 * k) ++ '\x7d' :: rest) from by simp [renderVal]]
      rw [parseVal.eq_def]
      show (match skipWs (renderMembers (k + 1) ((key, v) :: kvs) ++
              '\n' :: spacesC (2 * k) ++ '\x7d' :: rest) with
        | '\x7d' :: rest1 => some (PyVal.dict [], rest1)
        | cs1 =>
          match parseMembers f cs1 with
          | some (ps, rest1) => some (PyVal.dict (pyDictOfPairs ps), rest1)
          | none => none) = some (PyVal.dict ((key, v) :: kvs), rest)
      rw [skipWs_members_input (k + 1) (2 * k) key v kvs rest]
      rw [show quoteChars key.data ++ ':' :: ' ' :: (renderVal (k + 1) v ++
            membersGlue (k + 1) (2 * k) kvs rest) =
          '"' :: (escString key.data ++ '"' :: (':' :: ' ' :: (renderVal (k + 1) v ++
            membersGlue (k + 1) (2 * k) kvs rest))) from by simp [quoteChars]]
      split
      next rest1 heq =>
        injection heq with e1 e2
        exact absurd e1 (by decide)
      next cs1 hne =>
        rw [show ('"' :: (escString key.data ++ '"' :: (':' :: ' ' :: (renderVal (k + 1) v ++
              membersGlue (k + 1) (2 * k) kvs rest)))) =
            quoteChars key.data ++ ':' :: ' ' :: (renderVal (k + 1) v ++
              membersGlue (k + 1) (2 * k) kvs rest) from by simp [quoteChars]]
        rw [rt_members key v kvs hs1.1 hn1.1.2 hs1.2 hn1.2 f (k + 1) (2 * k) rest hfm]
        show some (PyVal.dict (pyDictOfPairs ((key, v) :: kvs)), rest) =
          some (PyVal.dict ((key, v) :: kvs), rest)
        rw [pyDictOfPairs_eq_self _ hn1.1.1]
termination_by v => sizeOf v
decreasing_by all_goals ((try subst_vars); (try simp); omega)
theorem rt_items : ∀ (x : PyVal) (xs : List PyVal),
    pvSer x = true → pvNodup x = true → pvSerList xs = true → pvNodupList xs = true →
    ∀ (fuel j m : Nat) (rest : List Char), needL (x :: xs) ≤ fuel →
    parseItems fuel (renderVal j x ++ itemsGlue j m xs rest) = some (x :: xs, rest)
  | x, xs, hsx, hnx, hsl, hnl, fuel, j, m, rest, hf => by
    cases fuel with
    | zero => simp [needL] at hf
    | succ f =>
      obtain ⟨hfx, hfxs⟩ := needL_succ_bound hf
      have hpv : parseVal f (renderVal j x ++ itemsGlue j m xs rest) =
          some (x, itemsGlue j m xs rest) :=
        rt_val x hsx hnx f j (itemsGlue j m xs rest) hfx (noDigitStart_itemsGlue j m xs rest)
      rw [parseItems.eq_def]
      simp only [hpv]
      cases xs with
      | nil =>
        rw [show skipWs (itemsGlue j m [] rest) = ']' :: rest from by
          rw [show itemsGlue j m [] rest = '\n' :: (spacesC m ++ ']' :: rest) from by
            simp [itemsGlue]]
          rw [skipWs_newline_spaces]
          exact skipWs_cons_of_not_ws (by decide) _]
        rfl
      | cons y ys =>
        have hsl1 : pvSer y = true ∧ pvSerList ys = true := by
          simp [pvSerList] at hsl
          exact hsl
        have hnl1 : pvNodup y = true ∧ pvNodupList ys = true := by
          simp [pvNodupList] at hnl
          exact hnl
        rw [show itemsGlue j m (y :: ys) rest =
          ',' :: (renderItems j (y :: ys) ++ '\n' :: spacesC m ++ ']' :: rest) from by
            simp [itemsGlue]]
        rw [skipWs_cons_of_not_ws (by decide) _]
        show (match parseItems f (renderItems j (y :: ys) ++
                '\n' :: spacesC m ++ ']' :: rest) with
          | some (vs, rest2) => some (x :: vs, rest2)
          | none => none) = some (x :: y :: ys, rest)
        rw [renderItems_cons_glue j m y ys rest]
        rw [show ('\n' :: (spacesC (2 * j) ++ (renderVal j y ++ itemsGlue j m ys rest))) =
          ('\n' :: spacesC (2 * j)) ++ (renderVal j y ++ itemsGlue j m ys rest) from by simp]
        rw [parseItems_ws f ('\n' :: spacesC (2 * j)) _ (nl_spaces_ws (2 * j))]
        rw [rt_items y ys hsl1.1 hnl1.1 hsl1.2 hnl1.2 f j m rest hfxs]
termination_by x xs => sizeOf x + sizeOf xs + 1
decreasing_by all_goals ((try subst_vars); (try simp); omega)
theorem rt_members : ∀ (key : String) (v : PyVal) (kvs : List (String × PyVal)),
    pvSer v = true → pvNodup v = true → pvSerMembers kvs = true → pvNodupMembers kvs = true →
    ∀ (fuel j m : Nat) (rest : List Char), needM ((key, v) :: kvs) ≤ fuel →
    parseMembers fuel (quoteChars key.data ++ ':' :: ' ' ::
      (renderVal j v ++ membersGlue j m kvs rest)) = some ((key, v) :: kvs, rest)
  | key, v, [], hsv, hnv, hsm, hnm, fuel, j, m, rest, hf => by
    cases fuel with
    | zero => simp [needM] at hf
    | succ f =>
      obtain ⟨hfv, hfkvs⟩ := needM_succ_bound hf
      have hps : parseStrChars (escString key.data ++ '"' :: (':' :: ' ' ::
          (renderVal j v ++ membersGlue j m [] rest))) =
          some (key.data, ':' :: ' ' :: (renderVal j v ++ membersGlue j m [] rest)) :=
        parseStrChars_escString key.data _
      have hsk1 : skipWs (':' :: ' ' :: (renderVal j v ++ membersGlue j m [] rest)) =
          ':' :: ' ' :: (renderVal j v ++ membersGlue j m [] rest) :=
        skipWs_cons_of_not_ws (by decide) _
      have hpv : parseVal f (' ' :: (renderVal j v ++ membersGlue j m [] rest)) =
          some (v, membersGlue j m [] rest) := by
        rw [show (' ' :: (renderVal j v ++ membersGlue j m [] rest)) =
          [' '] ++ (renderVal j v ++ membersGlue j m [] rest) from by simp]
        rw [parseVal_ws f [' '] _ (by intro c hc; simp at hc; subst hc; decide)]
        exact rt_val v hsv hnv f j _ hfv (noDigitStart_membersGlue j m [] rest)
      rw [show quoteChars key.data ++ ':' :: ' ' ::
            (renderVal j v ++ membersGlue j m [] rest) =
          '"' :: (escString key.data ++ '"' :: (':' :: ' ' :: (renderVal j v ++
            membersGlue j m [] rest))) from by simp [quoteChars]]
      have hsk0 : skipWs ('"' :: (escString key.data ++ '"' :: (':' :: ' ' ::
          (renderVal j v ++ membersGlue j m [] rest)))) =
          '"' :: (escString key.data ++ '"' :: (':' :: ' ' ::
          (renderVal j v ++ membersGlue j m [] rest))) :=
        skipWs_cons_of_not_ws (by decide) _
      rw [parseMembers.eq_def]
      simp only [hsk0, hps, hsk1, hpv]
      rw [show skipWs (membersGlue j m [] rest) = '\x7d' :: rest from by
        rw [show membersGlue j m [] rest = '\n' :: (spacesC m ++ '\x7d' :: rest) from by
          simp [membersGlue]]
        rw [skipWs_newline_spaces]
        exact skipWs_cons_of_not_ws (by decide) _]
      rfl
  | key, v, (key2, v2) :: kvs2, hsv, hnv, hsm, hnm, fuel, j, m, rest, hf => by
    cases fuel with
    | zero => simp [needM] at hf
    | succ f =>
      obtain ⟨hfv, hfkvs⟩ := needM_succ_bound hf
      have hps : parseStrChars (escString key.data ++ '"' :: (':' :: ' ' ::
          (renderVal j v ++ membersGlue j m ((key2, v2) :: kvs2) rest))) =
          some (key.data, ':' :: ' ' ::
            (renderVal j v ++ membersGlue j m ((key2, v2) :: kvs2) rest)) :=
        parseStrChars_escString key.data _
      have hsk1 : skipWs (':' :: ' ' ::
          (renderVal j v ++ membersGlue j m ((key2, v2) :: kvs2) rest)) =
          ':' :: ' ' :: (renderVal j v ++ membersGlue j m ((key2, v2) :: kvs2) rest) :=
        skipWs_cons_of_not_ws (by decide) _
      have hpv : parseVal f (' ' ::
          (renderVal j v ++ membersGlue j m ((key2, v2) :: kvs2) rest)) =
          some (v, membersGlue j m ((key2, v2) :: kvs2) rest) := by
        rw [show (' ' :: (renderVal j v ++ membersGlue j m ((key2, v2) :: kvs2) rest)) =
          [' '] ++ (renderVal j v ++ membersGlue j m ((key2, v2) :: kvs2) rest) from by simp]
        rw [parseVal_ws f [' '] _ (by intro c hc; simp at hc; subst hc; decide)]
        exact rt_val v hsv hnv f j _ hfv (noDigitStart_membersGlue j m ((key2, v2) :: kvs2) rest)
      rw [show quoteChars key.data ++ ':' :: ' ' ::
            (renderVal j v ++ membersGlue j m ((key2, v2) :: kvs2) rest) =
          '"' :: (escString key.data ++ '"' :: (':' :: ' ' :: (renderVal j v ++
            membersGlue j m ((key2, v2) :: kvs2) rest))) from by simp [quoteChars]]
      have hsk0 : skipWs ('"' :: (escString key.data ++ '"' :: (':' :: ' ' ::
          (renderVal j v ++ membersGlue j m ((key2, v2) :: kvs2) rest)))) =
          '"' :: (escString key.data ++ '"' :: (':' :: ' ' ::
          (renderVal j v ++ membersGlue j m ((key2, v2) :: kvs2) rest))) :=
        skipWs_cons_of_not_ws (by decide) _
      rw [parseMembers.eq_def]
      simp only [hsk0, hps, hsk1, hpv]
      have hsm1 : pvSer v2 = true ∧ pvSerMembers kvs2 = true := by
        simp [pvSerMembers] at hsm
        exact hsm
      have hnm1 : pvNodup v2 = true ∧ pvNodupMembers kvs2 = true := by
        simp [pvNodupMembers] at hnm
        exact hnm
      rw [show membersGlue j m ((key2, v2) :: kvs2) rest =
        ',' :: (renderMembers j ((key2, v2) :: kvs2) ++
          '\n' :: spacesC m ++ '\x7d' :: rest) from by simp [membersGlue]]
      rw [skipWs_cons_of_not_ws (by decide) _]
      have hrec : parseMembers f (renderMembers j ((key2, v2) :: kvs2) ++
          '\n' :: spacesC m ++ '\x7d' :: rest) = some ((key2, v2) :: kvs2, rest) := by
        rw [renderMembers_cons_glue j m key2 v2 kvs2 rest]
        rw [show ('\n' :: (spacesC (2 * j) ++ (quoteChars key2.data ++ ':' :: ' ' ::
              (renderVal j v2 ++ membersGlue j m kvs2 rest)))) =
            ('\n' :: spacesC (2 * j)) ++ (quoteChars key2.data ++ ':' :: ' ' ::
              (renderVal j v2 ++ membersGlue j m kvs2 rest)) from by simp]
        rw [parseMembers_ws f ('\n' :: spacesC (2 * j)) _ (nl_spaces_ws (2 * j))]
        exact rt_members key2 v2 kvs2 hsm1.1 hnm1.1 hsm1.2 hnm1.2 f j m rest hfkvs
      simp only [hrec]
termination_by key v kvs => sizeOf v + sizeOf kvs + 1
decreasing_by all_goals ((try subst_vars); (try simp); omega)
end

/-! Top-level round trip through the rendered text. -/

theorem jsonParse_render (v : PyVal) (hs : pvSer v = true) (hn : pvNodup v = true) :
    jsonParse (String.mk (renderVal 0 v)) = some v := by
  have hlen : needV v ≤ (renderVal 0 v).length + 1 :=
    le_trans (needV_le_len v 0) (Nat.le_succ _)
  have hrt : parseVal ((renderVal 0 v).length + 1) (renderVal 0 v ++ []) = some (v, []) :=
    rt_val v hs hn _ 0 [] hlen rfl
  rw [List.append_nil] at hrt
  unfold jsonParse
  rw [show (String.mk (renderVal 0 v)).data = renderVal 0 v from rfl, hrt]
  rfl

/-! Unpacking `validProfileB`. -/

theorem validProfileB_spec (p : UserProfile) (h : validProfileB p = true) :
    validate_name p.name = none ∧ validate_age p.age = none ∧
    validate_email p.email = none ∧ (∃ l, p.preferences = .dict l) ∧
    pvSer p.preferences = true ∧ pvNodup p.preferences = true ∧
    (∃ c, p.created_at = .str c) ∧ (∃ l, p.last_updated = .str l) := by
  simp only [validProfileB, Bool.and_eq_true] at h
  obtain ⟨⟨⟨⟨⟨⟨h1, h2⟩, h3⟩, h4⟩, h5⟩, h6⟩, h7⟩ := h
  refine ⟨?_, ?_, ?_, ?_, ?_, ?_, ?_, ?_⟩
  · cases hcc : validate_name p.name with
    | none => rfl
    | some e => rw [hcc] at h1; simp [Option.isNone] at h1
  · cases hcc : validate_age p.age with
    | none => rfl
    | some e => rw [hcc] at h2; simp [Option.isNone] at h2
  · cases hcc : validate_email p.email with
    | none => rfl
    | some e => rw [hcc] at h3; simp [Option.isNone] at h3
  · cases hp : p.preferences with
    | dict l => exact ⟨l, rfl⟩
    | null => rw [hp] at h4; simp [PyVal.isDict] at h4
    | bool b => rw [hp] at h4; simp [PyVal.isDict] at h4
    | int n => rw [hp] at h4; simp [PyVal.isDict] at h4
    | str s => rw [hp] at h4; simp [PyVal.isDict] at h4
    | arr xs => rw [hp] at h4; simp [PyVal.isDict] at h4
    | opq t => rw [hp] at h4; simp [PyVal.isDict] at h4
  · simp only [pvWf, Bool.and_eq_true] at h5
    exact h5.1
  · simp only [pvWf, Bool.and_eq_true] at h5
    exact h5.2
  · cases hp : p.created_at with
    | str s => exact ⟨s, rfl⟩
    | null => rw [hp] at h6; simp [PyVal.isStr] at h6
    | bool b => rw [hp] at h6; simp [PyVal.isStr] at h6
    | int n => rw [hp] at h6; simp [PyVal.isStr] at h6
    | arr xs => rw [hp] at h6; simp [PyVal.isStr] at h6
    | dict l => rw [hp] at h6; simp [PyVal.isStr] at h6
    | opq t => rw [hp] at h6; simp [PyVal.isStr] at h6
  · cases hp : p.last_updated with
    | str s => exact ⟨s, rfl⟩
    | null => rw [hp] at h7; simp [PyVal.isStr] at h7
    | bool b => rw [hp] at h7; simp [PyVal.isStr] at h7
    | int n => rw [hp] at h7; simp [PyVal.isStr] at h7
    | arr xs => rw [hp] at h7; simp [PyVal.isStr] at h7
    | dict l => rw [hp] at h7; simp [PyVal.isStr] at h7
    | opq t => rw [hp] at h7; simp [PyVal.isStr] at h7

theorem validate_name_str {v : PyVal} (h : validate_name v = none) : ∃ s, v = .str s := by
  cases v with
  | str s => exact ⟨s, rfl⟩
  | null => simp [validate_name] at h
  | bool b => simp [validate_name] at h
  | int n => simp [validate_name] at h
  | arr xs => simp [validate_name] at h
  | dict l => simp [validate_name] at h
  | opq t => simp [validate_name] at h

theorem validate_age_shape {v : PyVal} (h : validate_age v = none) :
    (∃ n, v = .int n) ∨ (∃ b, v = .bool b) := by
  cases v with
  | int n => exact Or.inl ⟨n, rfl⟩
  | bool b => exact Or.inr ⟨b, rfl⟩
  | null => simp [validate_age] at h
  | str s => simp [validate_age] at h
  | arr xs => simp [validate_age] at h
  | dict l => simp [validate_age] at h
  | opq t => simp [validate_age] at h

theorem validate_email_str {v : PyVal} (h : validate_email v = none) : ∃ s, v = .str s := by
  cases v with
  | str s => exact ⟨s, rfl⟩
  | null => simp [validate_email] at h
  | bool b => simp [validate_email] at h
  | int n => simp [validate_email] at h
  | arr xs => simp [validate_email] at h
  | dict l => simp [validate_email] at h
  | opq t => simp [validate_email] at h

theorem to_dict_ser (p : UserProfile) (h : validProfileB p = true) :
    pvSer p.to_dict = true ∧ pvNodup p.to_dict = true := by
  obtain ⟨h1, h2, h3, ⟨lp, hlp⟩, h5, h6, ⟨c, hc⟩, ⟨l, hl⟩⟩ := validProfileB_spec p h
  obtain ⟨nm, hnm⟩ := validate_name_str h1
  obtain ⟨em, hem⟩ := validate_email_str h3
  constructor
  · simp only [UserProfile.to_dict, pvSer, pvSerMembers, Bool.and_eq_true]
    rw [hnm, hem, hc, hl]
    rcases validate_age_shape h2 with ⟨n, ha⟩ | ⟨b, ha⟩ <;>
      simp [ha, pvSer, h5]
  · simp only [UserProfile.to_dict, pvNodup, pvNodupMembers, Bool.and_eq_true]
    constructor
    · simp [nodupKeys, containsKeyC]
    · rw [hnm, hem, hc, hl]
      rcases validate_age_shape h2 with ⟨n, ha⟩ | ⟨b, ha⟩ <;>
        simp [ha, pvNodup, h6]

theorem pref_or_empty (l : List (String × PyVal)) :
    (if pyTruthy (.dict l) = true then PyVal.dict l else .dict []) = .dict l := by
  cases l with
  | nil => simp [pyTruthy]
  | cons kv kvs => simp [pyTruthy]

theorem serialize_valid (p : UserProfile) (h : validProfileB p = true) :
    serialize_user_profile p = .ok (String.mk (renderVal 0 p.to_dict)) := by
  obtain ⟨hser, hnod⟩ := to_dict_ser p h
  have hdumps : jsonDumps p.to_dict = some (String.mk (renderVal 0 p.to_dict)) := by
    simp [jsonDumps, hser]
  have hparse := jsonParse_render p.to_dict hser hnod
  obtain ⟨h1, _, _, _, _, _, _, _⟩ := validProfileB_spec p h
  obtain ⟨nm, hnm⟩ := validate_name_str h1
  unfold serialize_user_profile
  simp only [hdumps]
  simp only [hparse]
  have ht : p.to_dict = PyVal.dict [("name", p.name), ("age", p.age), ("email", p.email),
      ("preferences", p.preferences), ("created_at", p.created_at),
      ("last_updated", p.last_updated), ("_version", .str "1.0")] := rfl
  rw [ht, hnm]
  simp [pyLookup, pvEq]

theorem deserialize_serialize (p : UserProfile) (h : validProfileB p = true) (now2 : String) :
    deserialize_user_profile now2 (String.mk (renderVal 0 p.to_dict)) = .ok p := by
  obtain ⟨hser, hnod⟩ := to_dict_ser p h
  have hparse := jsonParse_render p.to_dict hser hnod
  obtain ⟨h1, h2, h3, ⟨lp, hlp⟩, _, _, ⟨c, hc⟩, ⟨lu, hlu⟩⟩ := validProfileB_spec p h
  have hne : ¬ (String.mk (renderVal 0 p.to_dict) = "") := by
    obtain ⟨c0, t0, hct, _, _, _, _⟩ := renderVal_head 0 p.to_dict hser
    rw [hct]
    intro he
    have := congrArg String.data he
    simp at this
  have hinit : userProfileInit p.name p.age p.email p.preferences now2 =
      .ok ⟨p.name, p.age, p.email, p.preferences, .str now2, .str now2⟩ := by
    unfold userProfileInit
    simp only [h1, h2, h3]
    rw [hlp, pref_or_empty]
  unfold deserialize_user_profile
  rw [if_neg hne]
  rw [hparse]
  have ht : p.to_dict = PyVal.dict [("name", p.name), ("age", p.age), ("email", p.email),
      ("preferences", p.preferences), ("created_at", p.created_at),
      ("last_updated", p.last_updated), ("_version", .str "1.0")] := rfl
  rw [ht]
  simp [UserProfile.from_dict, containsKeyC, pyGetD, pyLookup, hinit]

/-! Helper facts for the claim theorems. -/

theorem userProfileInit_fields {name age email prefs : PyVal} {now : String} {p : UserProfile}
    (h : userProfileInit name age email prefs now = .ok p) :
    p.name = name ∧ p.age = age ∧ p.email = email ∧
    p.preferences = (if pyTruthy prefs = true then prefs else .dict []) ∧
    p.created_at = .str now ∧ p.last_updated = .str now := by
  unfold userProfileInit at h
  cases h1 : validate_name name with
  | some e => rw [h1] at h; simp at h
  | none =>
    rw [h1] at h
    cases h2 : validate_age age with
    | some e => rw [h2] at h; simp at h
    | none =>
      rw [h2] at h
      cases h3 : validate_email email with
      | some e => rw [h3] at h; simp at h
      | none =>
        rw [h3] at h
        injection h with h
        subst h
        exact ⟨rfl, rfl, rfl, rfl, rfl, rfl⟩

theorem userProfileInit_ts {name age email prefs : PyVal} {now : String} {p : UserProfile}
    (h : userProfileInit name age email prefs now = .ok p) : tsInvariant p := by
  obtain ⟨_, _, _, _, h5, h6⟩ := userProfileInit_fields h
  exact ⟨now, now, h5, h6, le_refl now⟩

theorem containsKeyC_of_lookup :
    ∀ (kvs : List (String × PyVal)) (k : String) (v : PyVal),
      pyLookup kvs k = some v → containsKeyC kvs k = true
  | [], k, v, h => by simp [pyLookup] at h
  | (k1, v1) :: rest, k, v, h => by
    by_cases hk : k1 = k
    · simp [containsKeyC, hk]
    · rw [show pyLookup ((k1, v1) :: rest) k = pyLookup rest k from by
        simp [pyLookup, hk]] at h
      have ih := containsKeyC_of_lookup rest k v h
      unfold containsKeyC at ih ⊢
      simp only [List.any_cons]
      rw [ih]
      simp

theorem pyLookup_none_of_not_contains :
    ∀ (kvs : List (String × PyVal)) (k : String),
      containsKeyC kvs k = false → pyLookup kvs k = none
  | [], k, _ => rfl
  | (k1, v1) :: rest, k, h => by
    simp [containsKeyC] at h
    obtain ⟨h1, h2⟩ := h
    rw [show pyLookup ((k1, v1) :: rest) k = pyLookup rest k from by simp [pyLookup, h1]]
    apply pyLookup_none_of_not_contains rest k
    unfold containsKeyC
    rw [List.any_eq_false]
    intro kv hkv
    simp
    exact h2 kv.1 kv.2 (by simpa using hkv)

theorem firstBadPref_spec :
    ∀ (kvs : List (String × PyVal)) (k : String) (v : PyVal),
      (k, v) ∈ kvs → pvSer v = false →
      ∃ k2 v2, firstBadPref kvs = some k2 ∧ (k2, v2) ∈ kvs ∧ pvSer v2 = false
  | [], k, v, hmem, _ => by simp at hmem
  | (k1, v1) :: rest, k, v, hmem, hbad => by
    by_cases hs : pvSer v1 = true
    · have hmem2 : (k, v) ∈ rest := by
        rcases List.mem_cons.mp hmem with he | hr
        · injection he with e1 e2
          rw [e2] at hbad
          rw [hbad] at hs
          exact Bool.noConfusion hs
        · exact hr
      obtain ⟨k2, v2, hf, hm, hb⟩ := firstBadPref_spec rest k v hmem2 hbad
      refine ⟨k2, v2, ?_, List.mem_cons_of_mem _ hm, hb⟩
      simp [firstBadPref, hs, hf]
    · refine ⟨k1, v1, ?_, List.mem_cons_self _ _, Bool.eq_false_iff.mpr hs⟩
      simp [firstBadPref, Bool.eq_false_iff.mpr hs]

/-- Claim C1: round trip.  For every validly constructed Profile `p`,
`deserialize_user_profile (serialize_user_profile p)` succeeds and yields a
Profile equal to `p` in name, age, email, and preferences, with
`created_at` and `last_updated` preserved exactly (the decoded profile is
equal to `p` as a whole). -/
theorem claim_C1_round_trip (p : UserProfile) (now2 : String)
    (h : validProfileB p = true) :
    ∃ s, serialize_user_profile p = .ok s ∧ deserialize_user_profile now2 s = .ok p :=
  ⟨String.mk (renderVal 0 p.to_dict), serialize_valid p h, deserialize_serialize p h now2⟩

/-- Witness for claim C1 at a concrete profile. -/
theorem claim_C1_round_trip_witness :
    validProfileB ⟨.str "Alice Johnson", .int 28, .str "alice@example.com",
      .dict [("theme", .str "dark"), ("notifications", .bool true)],
      .str "2024-01-01T10:00:00", .str "2024-01-02T11:30:00"⟩ = true ∧
    ∃ s, serialize_user_profile ⟨.str "Alice Johnson", .int 28, .str "alice@example.com",
        .dict [("theme", .str "dark"), ("notifications", .bool true)],
        .str "2024-01-01T10:00:00", .str "2024-01-02T11:30:00"⟩ = .ok s ∧
      deserialize_user_profile "2026-10-12T00:00:00"
        s = .ok ⟨.str "Alice Johnson", .int 28, .str "alice@example.com",
        .dict [("theme", .str "dark"), ("notifications", .bool true)],
        .str "2024-01-01T10:00:00", .str "2024-01-02T11:30:00"⟩ :=
  ⟨by rfl, claim_C1_round_trip _ "2026-10-12T00:00:00" (by rfl)⟩

/-- Claim C3: the specification (and the module demonstration scenario
"Non-serializable preferences") expect construction to fail with a
ValidationError when a preference value cannot be JSON-encoded; the code
performs no preference validation in `__init__`, so construction succeeds
and stores the non-serializable value.  This theorem evaluates the code at
the failing input: `UserProfile("Test", 25, "test@example.com",
dict(complex_obj=object()))` returns a profile (no exception), even though
the stored value is precisely one that `json.dumps` rejects. -/
theorem claim_C3_code_evaluation (now : String) :
    userProfileInit (.str "Test") (.int 25) (.str "test@example.com")
      (.dict [("complex_obj", .opq 0)]) now =
      .ok ⟨.str "Test", .int 25, .str "test@example.com",
        .dict [("complex_obj", .opq 0)], .str now, .str now⟩ ∧
    pvSer (.opq 0) = false ∧
    jsonDumps (.dict [("complex_obj", .opq 0)]) = none :=
  ⟨rfl, rfl, rfl⟩

/-- Claim C4: validation boundaries.  Age 0 and 150 succeed, -1 and 151
fail with a ValueError (the ValidationError of the specification); a name
of exactly 100 characters succeeds, 101 fails; email `a@b.c` succeeds,
while `abc` (no at-sign) and `a@b` (no dot) fail — other fields held
valid. -/
theorem claim_C4_validation_boundaries (now : String) :
    (userProfileInit (.str "Bob") (.int 0) (.str "a@b.c") (.dict []) now).isOk = true ∧
    (userProfileInit (.str "Bob") (.int 150) (.str "a@b.c") (.dict []) now).isOk = true ∧
    userProfileInit (.str "Bob") (.int (-1)) (.str "a@b.c") (.dict []) now =
      .error (.valueError "Age must be between 0 and 150") ∧
    userProfileInit (.str "Bob") (.int 151) (.str "a@b.c") (.dict []) now =
      .error (.valueError "Age must be between 0 and 150") ∧
    (userProfileInit (.str (String.mk (List.replicate 100 'a'))) (.int 30) (.str "a@b.c")
      (.dict []) now).isOk = true ∧
    userProfileInit (.str (String.mk (List.replicate 101 'a'))) (.int 30) (.str "a@b.c")
      (.dict []) now = .error (.valueError "Name too long (max 100 characters)") ∧
    (userProfileInit (.str "Bob") (.int 30) (.str "a@b.c") (.dict []) now).isOk = true ∧
    userProfileInit (.str "Bob") (.int 30) (.str "abc") (.dict []) now =
      .error (.valueError "Invalid email format") ∧
    userProfileInit (.str "Bob") (.int 30) (.str "a@b") (.dict []) now =
      .error (.valueError "Invalid email format") :=
  ⟨rfl, rfl, rfl, rfl, rfl, rfl, rfl, rfl, rfl⟩

/-- Claim C9: deterministic encode.  Serialization is a function of the
profile attributes alone, so encoding the same unmodified profile twice
(two profiles with identical attribute values) yields byte-identical
output. -/
theorem claim_C9_deterministic_encode (p q : UserProfile) (h1 : p.name = q.name)
    (h2 : p.age = q.age) (h3 : p.email = q.email) (h4 : p.preferences = q.preferences)
    (h5 : p.created_at = q.created_at) (h6 : p.last_updated = q.last_updated) :
    serialize_user_profile p = serialize_user_profile q := by
  have hpq : p = q := by
    cases p
    cases q
    simp only at h1 h2 h3 h4 h5 h6
    rw [h1, h2, h3, h4, h5, h6]
  rw [hpq]

/-- Witness for claim C9: the encoder applied twice to the same profile
value produces equal results. -/
theorem claim_C9_deterministic_encode_witness :
    serialize_user_profile ⟨.str "Bob", .int 3, .str "a@b.c", .dict [],
        .str "t", .str "t"⟩ =
      serialize_user_profile ⟨.str "Bob", .int 3, .str "a@b.c", .dict [],
        .str "t", .str "t"⟩ :=
  claim_C9_deterministic_encode _ _ rfl rfl rfl rfl rfl rfl

/-- Claim C2 counterexample: decoding a record that carries explicit
`created_at` and `last_updated` fields restores them verbatim with no
ordering check, so the decoded profile violates `lastUpdated >= createdAt`
at this concrete input. -/
theorem claim_C2_counterexample :
    deserialize_user_profile "2026-02-03T00:00:00"
      "\x7b\"name\": \"Ann\", \"age\": 30, \"email\": \"a@b.c\", \"created_at\": \"2025-06-01T00:00:00\", \"last_updated\": \"2020-01-01T00:00:00\"\x7d" =
      .ok ⟨.str "Ann", .int 30, .str "a@b.c", .dict [],
        .str "2025-06-01T00:00:00", .str "2020-01-01T00:00:00"⟩ ∧
    ¬ tsInvariant ⟨.str "Ann", .int 30, .str "a@b.c", .dict [],
        .str "2025-06-01T00:00:00", .str "2020-01-01T00:00:00"⟩ := by
  constructor
  · rfl
  · rintro ⟨c, l, hc, hl, hle⟩
    injection hc with hc
    injection hl with hl
    rw [← hc, ← hl] at hle
    rw [String.le_iff_toList_le] at hle
    exact absurd hle (by decide)

/-- Claim C2 amended: profiles produced by construction satisfy
`lastUpdated >= createdAt` (both equal the construction time); a successful
preference update preserves it provided the clock is monotone (the new
stamp is at least the stored `createdAt`); recovery stamps both equal; and
a decode whose record carries no explicit `created_at`/`last_updated`
fields stamps both equal.  Decode with explicit timestamp fields restores
them verbatim and does NOT enforce the inequality (see the
counterexample). -/
theorem claim_C2_amended :
    (∀ name age email prefs now p,
      userProfileInit name age email prefs now = .ok p → tsInvariant p) ∧
    (∀ (p : UserProfile) prefs now c q, p.created_at = .str c → c ≤ now →
      UserProfile.update_preferences p prefs now = (none, q) → tsInvariant q) ∧
    (∀ now s p, backup_deserialization_attempt now s = some p → tsInvariant p) ∧
    (∀ now s kvs p, jsonParse s = some (.dict kvs) →
      containsKeyC kvs "created_at" = false → containsKeyC kvs "last_updated" = false →
      deserialize_user_profile now s = .ok p → tsInvariant p) := by
  refine ⟨?_, ?_, ?_, ?_⟩
  · intro name age email prefs now p hp
    exact userProfileInit_ts hp
  · intro p prefs now c q hc hcle hupd
    cases prefs with
    | dict kvs =>
      cases hfb : firstBadPref kvs with
      | some k =>
        simp only [UserProfile.update_preferences, hfb] at hupd
        simp at hupd
      | none =>
        cases hpp : p.preferences with
        | dict old =>
          simp only [UserProfile.update_preferences, hfb, hpp] at hupd
          obtain ⟨h1, h2⟩ := Prod.mk.injEq .. ▸ hupd
          rw [← h2]
          exact ⟨c, now, hc, rfl, hcle⟩
        | null => simp only [UserProfile.update_preferences, hfb, hpp] at hupd; simp at hupd
        | bool b => simp only [UserProfile.update_preferences, hfb, hpp] at hupd; simp at hupd
        | int n => simp only [UserProfile.update_preferences, hfb, hpp] at hupd; simp at hupd
        | str s => simp only [UserProfile.update_preferences, hfb, hpp] at hupd; simp at hupd
        | arr xs => simp only [UserProfile.update_preferences, hfb, hpp] at hupd; simp at hupd
        | opq t => simp only [UserProfile.update_preferences, hfb, hpp] at hupd; simp at hupd
    | null => simp only [UserProfile.update_preferences] at hupd; simp at hupd
    | bool b => simp only [UserProfile.update_preferences] at hupd; simp at hupd
    | int n => simp only [UserProfile.update_preferences] at hupd; simp at hupd
    | str s => simp only [UserProfile.update_preferences] at hupd; simp at hupd
    | arr xs => simp only [UserProfile.update_preferences] at hupd; simp at hupd
    | opq t => simp only [UserProfile.update_preferences] at hupd; simp at hupd
  · intro now s p hb
    cases hj : jsonParse s with
    | none => simp [backup_deserialization_attempt, hj] at hb
    | some v =>
      cases v with
      | dict kvs =>
        rcases hba : backupArgs kvs with ⟨n1, a1, e1, p1⟩
        cases hini : userProfileInit n1 a1 e1 p1 now with
        | error e => simp [backup_deserialization_attempt, hj, hba, hini] at hb
        | ok p2 =>
          have hb2 : p2 = p := by
            simpa [backup_deserialization_attempt, hj, hba, hini] using hb
          rw [← hb2]
          exact userProfileInit_ts hini
      | null => simp [backup_deserialization_attempt, hj] at hb
      | bool b => simp [backup_deserialization_attempt, hj] at hb
      | int n => simp [backup_deserialization_attempt, hj] at hb
      | str s2 => simp [backup_deserialization_attempt, hj] at hb
      | arr xs => simp [backup_deserialization_attempt, hj] at hb
      | opq t => simp [backup_deserialization_attempt, hj] at hb
  · intro now s kvs p hj hnc hnl hd
    by_cases hs0 : s = ""
    · rw [hs0] at hj
      rw [show jsonParse "" = none from rfl] at hj
      simp at hj
    · have hlc : pyLookup kvs "created_at" = none :=
        pyLookup_none_of_not_contains _ _ hnc
      have hll : pyLookup kvs "last_updated" = none :=
        pyLookup_none_of_not_contains _ _ hnl
      cases hcn : containsKeyC kvs "name" with
      | false =>
        simp [deserialize_user_profile, UserProfile.from_dict, hs0, hj, hcn] at hd
      | true =>
        cases hca : containsKeyC kvs "age" with
        | false =>
          simp [deserialize_user_profile, UserProfile.from_dict, hs0, hj, hcn, hca] at hd
        | true =>
          cases hce : containsKeyC kvs "email" with
          | false =>
            simp [deserialize_user_profile, UserProfile.from_dict, hs0, hj, hcn, hca,
              hce] at hd
          | true =>
            cases hini : userProfileInit (pyGetD kvs "name" PyVal.null)
                (pyGetD kvs "age" PyVal.null) (pyGetD kvs "email" PyVal.null)
                (pyGetD kvs "preferences" (PyVal.dict [])) now with
            | error e =>
              cases e with
              | valueError m =>
                simp [deserialize_user_profile, UserProfile.from_dict, hs0, hj, hcn,
                  hca, hce, hini] at hd
              | typeError m =>
                simp [deserialize_user_profile, UserProfile.from_dict, hs0, hj, hcn,
                  hca, hce, hini] at hd
              | keyError m =>
                simp [deserialize_user_profile, UserProfile.from_dict, hs0, hj, hcn,
                  hca, hce, hini] at hd
              | attributeError m =>
                simp [deserialize_user_profile, UserProfile.from_dict, hs0, hj, hcn,
                  hca, hce, hini] at hd
              | serializationError m =>
                simp [deserialize_user_profile, UserProfile.from_dict, hs0, hj, hcn,
                  hca, hce, hini] at hd
              | deserializationError m =>
                simp [deserialize_user_profile, UserProfile.from_dict, hs0, hj, hcn,
                  hca, hce, hini] at hd
            | ok prof =>
              have hd2 : prof = p := by
                simpa [deserialize_user_profile, UserProfile.from_dict, hs0, hj, hcn,
                  hca, hce, hini, hlc, hll] using hd
              rw [← hd2]
              exact userProfileInit_ts hini

/-- Witness for claim C2 amended, at a concrete construction. -/
theorem claim_C2_amended_witness :
    tsInvariant ⟨.str "Bob", .int 1, .str "b@c.d", .dict [],
      .str "2026-01-01T00:00:00", .str "2026-01-01T00:00:00"⟩ :=
  claim_C2_amended.1 (.str "Bob") (.int 1) (.str "b@c.d") (.dict [])
    "2026-01-01T00:00:00" _ (by rfl)

/-- Claim C5: update atomicity.  If any entry of the new preference mapping
holds a value that the interchange encoder cannot encode, the update fails
with a ValueError naming an offending key (the first one the validation
loop meets), and the receiving profile is returned unchanged — the failure
happens before any merge, so no partial merge is observable. -/
theorem claim_C5_update_atomicity (p : UserProfile) (kvs : List (String × PyVal))
    (now : String) (k : String) (v : PyVal) (hmem : (k, v) ∈ kvs)
    (hbad : pvSer v = false) :
    ∃ k2 v2, (k2, v2) ∈ kvs ∧ pvSer v2 = false ∧
      UserProfile.update_preferences p (.dict kvs) now =
        (some (.valueError ("Preference value for \x27" ++ k2 ++
          "\x27 is not JSON serializable")), p) := by
  obtain ⟨k2, v2, hf, hm, hb⟩ := firstBadPref_spec kvs k v hmem hbad
  exact ⟨k2, v2, hm, hb, by simp only [UserProfile.update_preferences, hf]⟩

/-- Witness for claim C5 at a concrete profile and a non-serializable
preference value. -/
theorem claim_C5_update_atomicity_witness :
    ∃ k2 v2, (k2, v2) ∈ [("k", PyVal.opq 0)] ∧ pvSer v2 = false ∧
      UserProfile.update_preferences ⟨.str "Bob", .int 3, .str "a@b.c", .dict [],
          .str "t1", .str "t1"⟩ (.dict [("k", .opq 0)]) "t2" =
        (some (.valueError ("Preference value for \x27" ++ k2 ++
          "\x27 is not JSON serializable")),
          ⟨.str "Bob", .int 3, .str "a@b.c", .dict [], .str "t1", .str "t1"⟩) :=
  claim_C5_update_atomicity _ _ "t2" "k" (.opq 0) (List.mem_singleton.mpr rfl) rfl

/-- Claim C6: recovery age coercion.  The recovery path accepts the parsed
age value exactly when its text form consists entirely of decimal digits
(in which case the accepted value is the integer it denotes), and coerces
it to 0 otherwise; on the concrete corrupted input of the specification it
returns a profile with age 0, name John, email john at example.com. -/
theorem claim_C6_recovery_age (now : String) :
    (∀ v : PyVal, isDigitStr (pyStr v) = false → backupAgeCoerce v = 0) ∧
    (∀ s : String, isDigitStr s = true →
      backupAgeCoerce (.str s) = (digitsVal s.data : Int)) ∧
    (∀ n : Int, isDigitStr (intStr n) = true → backupAgeCoerce (.int n) = n) ∧
    backup_deserialization_attempt now
      "\x7b\"name\": \"John\", \"age\": \"invalid\", \"email\": \"john@example.com\", \"preferences\": \x7b\x7d\x7d" =
      some ⟨.str "John", .int 0, .str "john@example.com", .dict [],
        .str now, .str now⟩ := by
  refine ⟨?_, ?_, ?_, ?_⟩
  · intro v h
    cases v with
    | int n =>
      have h2 : isDigitStr (intStr n) = false := h
      simp [backupAgeCoerce, h2]
    | str s =>
      have h2 : isDigitStr s = false := h
      simp [backupAgeCoerce, h2]
    | null => rfl
    | bool b => rfl
    | arr xs => rfl
    | dict l => rfl
    | opq t => rfl
  · intro s h
    simp [backupAgeCoerce, h]
  · intro n h
    simp [backupAgeCoerce, h]
  · rfl

/-- Witness for claim C6 on concrete age values. -/
theorem claim_C6_recovery_age_witness :
    backupAgeCoerce (.str "invalid") = 0 ∧ backupAgeCoerce (.str "25") = 25 ∧
    backupAgeCoerce (.int (-5)) = 0 :=
  ⟨(claim_C6_recovery_age "t").1 (.str "invalid") (by rfl),
   Eq.trans ((claim_C6_recovery_age "t").2.1 "25" (by rfl)) (by rfl),
   (claim_C6_recovery_age "t").1 (.int (-5)) (by rfl)⟩

/-- Claim C7: recovery totality.  The recovery path is a total function
returning an optional profile: a parse failure yields none, a construction
failure from the recovered fields yields none, and every call returns
either none or a profile (never an exception, which the embedding renders
as totality of the function together with the two failure cases). -/
theorem claim_C7_recovery_totality :
    (∀ now s, jsonParse s = none → backup_deserialization_attempt now s = none) ∧
    (∀ now s kvs e, jsonParse s = some (.dict kvs) →
      userProfileInit (backupArgs kvs).1 (backupArgs kvs).2.1 (backupArgs kvs).2.2.1
        (backupArgs kvs).2.2.2 now = .error e →
      backup_deserialization_attempt now s = none) ∧
    (∀ now s, backup_deserialization_attempt now s = none ∨
      ∃ p, backup_deserialization_attempt now s = some p) := by
  refine ⟨?_, ?_, ?_⟩
  · intro now s h
    simp [backup_deserialization_attempt, h]
  · intro now s kvs e hj hini
    rcases hba : backupArgs kvs with ⟨n1, a1, e1, p1⟩
    have hini2 : userProfileInit n1 a1 e1 p1 now = .error e := by
      rw [hba] at hini
      exact hini
    simp [backup_deserialization_attempt, hj, hba, hini2]
  · intro now s
    cases h : backup_deserialization_attempt now s with
    | none => exact Or.inl rfl
    | some p => exact Or.inr ⟨p, rfl⟩

/-- Witness for claim C7 on a concrete unparseable input. -/
theorem claim_C7_recovery_totality_witness :
    jsonParse "not json" = none ∧
    backup_deserialization_attempt "t" "not json" = none :=
  ⟨by rfl, claim_C7_recovery_totality.1 "t" "not json" (by rfl)⟩

/-- Claim C8: malformed-text decode.  For every input text the parser
cannot parse, decoding fails with a DeserializationError; the result type
carries the exception class, so no parser exception
(json.JSONDecodeError) crosses the boundary. -/
theorem claim_C8_malformed_decode (now s : String) (h : jsonParse s = none) :
    ∃ m, deserialize_user_profile now s = .error (.deserializationError m) := by
  by_cases hs0 : s = ""
  · subst hs0
    exact ⟨"Unexpected error during deserialization: No JSON data provided for deserialization",
      rfl⟩
  · refine ⟨"Unexpected error during deserialization: Invalid JSON format", ?_⟩
    simp only [deserialize_user_profile, if_neg hs0, h]
    rfl

/-- Witness for claim C8 on the concrete malformed input of the
specification. -/
theorem claim_C8_malformed_decode_witness :
    jsonParse "\x7binvalid json\x7d" = none ∧
    ∃ m, deserialize_user_profile "t" "\x7binvalid json\x7d" =
      .error (.deserializationError m) :=
  ⟨by rfl, claim_C8_malformed_decode "t" _ (by rfl)⟩

/-- Claim C10 (implicit): decode does not check that the preferences field
of the parsed record is a mapping.  For every well-formed record whose
name, age, and email pass validation and whose preferences value is any
non-mapping value, decoding succeeds and stores the value verbatim when it
is truthy, replacing a falsy value (such as an empty array or empty
string) by the empty mapping. -/
theorem claim_C10_preferences_not_checked (now s : String)
    (kvs : List (String × PyVal)) (nv av ev pv : PyVal)
    (hj : jsonParse s = some (.dict kvs))
    (hln : pyLookup kvs "name" = some nv) (hvn : validate_name nv = none)
    (hla : pyLookup kvs "age" = some av) (hva : validate_age av = none)
    (hle : pyLookup kvs "email" = some ev) (hve : validate_email ev = none)
    (hlp : pyLookup kvs "preferences" = some pv) (hnd : pv.isDict = false) :
    ∃ p, deserialize_user_profile now s = .ok p ∧
      p.preferences = (if pyTruthy pv = true then pv else .dict []) := by
  have hs0 : ¬ s = "" := by
    intro he
    rw [he, show jsonParse "" = none from rfl] at hj
    simp at hj
  have hcn := containsKeyC_of_lookup _ _ _ hln
  have hca := containsKeyC_of_lookup _ _ _ hla
  have hce := containsKeyC_of_lookup _ _ _ hle
  have hgn : pyGetD kvs "name" .null = nv := by simp [pyGetD, hln]
  have hga : pyGetD kvs "age" .null = av := by simp [pyGetD, hla]
  have hge : pyGetD kvs "email" .null = ev := by simp [pyGetD, hle]
  have hgp : pyGetD kvs "preferences" (.dict []) = pv := by simp [pyGetD, hlp]
  have hini : userProfileInit nv av ev pv now = .ok ⟨nv, av, ev,
      if pyTruthy pv = true then pv else .dict [], .str now, .str now⟩ := by
    simp only [userProfileInit, hvn, hva, hve]
  cases hlc : pyLookup kvs "created_at" with
  | none =>
    cases hlu : pyLookup kvs "last_updated" with
    | none =>
      exact ⟨⟨nv, av, ev, (if pyTruthy pv = true then pv else .dict []),
        .str now, .str now⟩,
        by simp [deserialize_user_profile, UserProfile.from_dict, hs0, hj, hcn, hca,
          hce, hgn, hga, hge, hgp, hini, hlc, hlu], rfl⟩
    | some vu =>
      exact ⟨⟨nv, av, ev, (if pyTruthy pv = true then pv else .dict []),
        .str now, vu⟩,
        by simp [deserialize_user_profile, UserProfile.from_dict, hs0, hj, hcn, hca,
          hce, hgn, hga, hge, hgp, hini, hlc, hlu], rfl⟩
  | some vc =>
    cases hlu : pyLookup kvs "last_updated" with
    | none =>
      exact ⟨⟨nv, av, ev, (if pyTruthy pv = true then pv else .dict []),
        vc, .str now⟩,
        by simp [deserialize_user_profile, UserProfile.from_dict, hs0, hj, hcn, hca,
          hce, hgn, hga, hge, hgp, hini, hlc, hlu], rfl⟩
    | some vu =>
      exact ⟨⟨nv, av, ev, (if pyTruthy pv = true then pv else .dict []),
        vc, vu⟩,
        by simp [deserialize_user_profile, UserProfile.from_dict, hs0, hj, hcn, hca,
          hce, hgn, hga, hge, hgp, hini, hlc, hlu], rfl⟩

/-- Witness for claim C10 on a concrete record whose preferences value is
a non-empty string. -/
theorem claim_C10_preferences_not_checked_witness :
    ∃ p, deserialize_user_profile "t"
      "\x7b\"name\": \"J\", \"age\": 1, \"email\": \"a@b.c\", \"preferences\": \"abc\"\x7d" =
      .ok p ∧
      p.preferences = (if pyTruthy (.str "abc") = true then PyVal.str "abc" else .dict []) :=
  claim_C10_preferences_not_checked "t" _
    [("name", .str "J"), ("age", .int 1), ("email", .str "a@b.c"),
     ("preferences", .str "abc")]
    (.str "J") (.int 1) (.str "a@b.c") (.str "abc")
    (by rfl) (by rfl) (by rfl) (by rfl) (by rfl) (by rfl) (by rfl) (by rfl) (by rfl)
